import Mathlib

/-!
Verification development for the deeplay hierarchical configuration engine
(`src/deeplay/config/config.py`).

The rule model, specificity resolution, merge, populate, reference and hook
resolution of `Config` are embedded as executable Lean definitions.  The
selector classes (`ClassSelector`, `WildcardSelector`, `DoubleWildcardSelector`,
`IndexSelector`, `NoneSelector`), `parse_selectors` and `Ref` live in a module
of the repository that is not part of the sources at hand; those operations are
modelled from the specification and are marked `Modelled from the spec:` in
their doc comments.  Everything else is translated directly from
`config.py`.

Python's implicit mutation is made explicit: operations that mutate a `Config`
return the updated value, and the `ForwardHook` state (`_value`, `_has_run`) is
carried in the structure.  Python exceptions are modelled with `Except PyErr`;
the distinction between exception classes matters because
`Config._take_most_specific_per_key` swallows exactly `ValueError` and
`TypeError`.  The mutual recursion between `Config.get` and
`ConfigRule.get_value` (through `Ref` values) is unbounded in Python; here it
is bounded by an explicit fuel parameter, and exhausting the fuel is modelled
as Python's `RecursionError` (which no handler in `config.py` catches).
-/

namespace Deeplay

/-- Python values that can appear as configuration rule values and results.
`none` is Python's `None`; `dict` is the (insertion ordered) mapping that
`Config.get` returns when several keys match and a dict result was requested. -/
inductive Lit : Type where
  | none : Lit
  | int (n : Int) : Lit
  | str (s : String) : Lit
  | list (xs : List Lit) : Lit
  | dict (entries : List (String × Lit)) : Lit

/-- Python exception classes raised (or caught) by the code of `config.py`.
`recursionError` models Python's `RecursionError`, used here when the explicit
fuel of the `get`/`get_value` recursion runs out. -/
inductive PyErr : Type where
  | valueError (msg : String) : PyErr
  | typeError (msg : String) : PyErr
  | indexError (msg : String) : PyErr
  | assertionError (msg : String) : PyErr
  | recursionError (msg : String) : PyErr

/-- The exception classes caught by the `except (ValueError, TypeError)` clause
in `Config._take_most_specific_per_key`. -/
def PyErr.isCaught : PyErr → Bool
  | .valueError _ => true
  | .typeError _ => true
  | _ => false

/-- True exactly on an `Except.error` carrying an `AssertionError`, the class
Python's `assert` statement raises. -/
def isAssertionError {α : Type} : Except PyErr α → Bool
  | .error (.assertionError _) => true
  | _ => false

/-- Modelled from the spec: one segment of a selector path.  The concrete
selector classes (`ClassSelector`, `WildcardSelector`,
`DoubleWildcardSelector`, `IndexSelector`) are external collaborators of
`config.py`; per the specification a segment is an exact name, a one-segment
wildcard, a zero-or-more-segments wildcard, or a numeric index over a named
segment with an optional population bound. -/
inductive Segment : Type where
  | cls (name : String) : Segment
  | wildcard : Segment
  | doubleWildcard : Segment
  | index (name : String) (idx : Option Nat) (length : Option Nat) : Segment
deriving DecidableEq

/-- Modelled from the spec: a selector is an ordered sequence of segments;
the empty sequence is the `NoneSelector` sentinel (concatenation with it is
neutral, which `List.append` provides). -/
abbrev Selector := List Segment

/-- Modelled from the spec: `key()` of a single selector segment, the plain
name used for rule grouping. -/
def Segment.key : Segment → String
  | .cls name => name
  | .wildcard => "*"
  | .doubleWildcard => "**"
  | .index name _ _ => name

/-- Modelled from the spec: the printable form of a segment, used in error
messages. -/
def Segment.str : Segment → String
  | .cls name => name
  | .wildcard => "*"
  | .doubleWildcard => "**"
  | .index name (some i) _ => name ++ "[" ++ toString i ++ "]"
  | .index name Option.none _ => name ++ "[]"

/-- Modelled from the spec: printable form of a selector path (segments joined
by dots), used in error messages. -/
def Selector.str (s : Selector) : String :=
  String.intercalate "." (s.map Segment.str)

/-- Modelled from the spec: `Selector.pop()` splits a path into
(all-but-last, last); on the `NoneSelector` both components are the sentinel,
rendered here as an empty body and `Option.none` last segment. -/
def Selector.pop (s : Selector) : Selector × Option Segment :=
  (s.dropLast, s.getLast?)

/-- Modelled from the spec: `IndexSelector.get_list_of_indices` enumerates the
concrete index positions an index segment stands for: a fixed index denotes
itself, no index with a population bound denotes `range length`
("None: every index, int: all indices up to but not including idx" per the
comment in `Config.populate`). -/
def Segment.get_list_of_indices : Segment → List Nat
  | .index _ (some i) _ => [i]
  | .index _ Option.none (some len) => List.range len
  | _ => []

/-- Modelled from the spec: indexing a selector (`selector[i]`, with an
optional population bound) replaces its last segment by an index segment over
the same name.  Indexing the `NoneSelector` is an error in the source
(`Config.__getitem__` guards against it); the total model returns the empty
selector there. -/
def Selector.setIndexLast (s : Selector) (i : Nat) (len : Option Nat) : Selector :=
  match s.getLast? with
  | Option.none => []
  | some lastSeg => s.dropLast ++ [Segment.index lastSeg.key (some i) len]

/-- Modelled from the spec: whether a single pattern segment matches a single
concrete context segment.  An exact name matches itself, a wildcard matches any
one segment, an index pattern with a fixed index matches exactly that index of
the same name and with no fixed index matches any index of the same name. -/
def segMatch : Segment → Segment → Bool
  | .cls a, .cls b => a == b
  | .index a (some i) _, .index b (some j) _ => a == b && i == j
  | .index a Option.none _, .index b _ _ => a == b
  | .wildcard, .cls _ => true
  | .wildcard, .index _ _ _ => true
  | _, _ => false

/-- Modelled from the spec: whether a selector pattern matches a full concrete
context path.  The source turns the rule selector into a regular expression
with `Selector.regex()` and matches it against the flattened context forms;
here the same match is computed structurally: a double wildcard absorbs zero
or more context segments, every other segment must match positionally, and
the whole context must be consumed. -/
def selMatch : List Segment → List Segment → Bool
  | [], cs => cs.isEmpty
  | Segment.doubleWildcard :: ps, cs =>
      (List.range (cs.length + 1)).any (fun k => selMatch ps (cs.drop k))
  | _ :: _, [] => false
  | p :: ps, c :: cs => segMatch p c && selMatch ps cs

/-- The `ForwardHook` class of `config.py`: a deferred value run by an external
trigger.  `hook` is the hook function (its Python arguments are collapsed to
one modelled value), `first_only` whether only the first trigger computes,
`_value` the cached result (initially Python `None`), `_has_run` whether the
trigger has run. -/
structure ForwardHook : Type where
  hook : Lit → Lit
  first_only : Bool
  _value : Lit
  _has_run : Bool

/-- `ForwardHook.__init__`: stores the hook function and the `first_only`
flag; the cache starts as `None` with `_has_run = False`. -/
def mkForwardHook (hook : Lit → Lit) (first_only : Bool) : ForwardHook :=
  { hook := hook, first_only := first_only, _value := Lit.none, _has_run := false }

/-- `ForwardHook.__call__` as a state transition: when `first_only` is set and
the hook has already run the state is unchanged, otherwise the hook function is
evaluated, cached, and `_has_run` becomes true. -/
def ForwardHook.call (h : ForwardHook) (x : Lit) : ForwardHook :=
  if h.first_only && h._has_run then h
  else { h with _value := h.hook x, _has_run := true }

/-- `ForwardHook.value`: returns the cached result, raising `ValueError` if
the hook has not been run yet. -/
def ForwardHook.value (h : ForwardHook) : Except PyErr Lit :=
  if !h._has_run then
    .error (.valueError "Hook has not been run yet. Make sure the module is evaluated before the target is called.")
  else .ok h._value

/-- A rule value: a plain literal, a `Ref` (modelled from the spec as a target
selector path plus a transform function, applied by `Ref.__call__`), or a
`ForwardHook` with its current state. -/
inductive Value : Type where
  | lit (v : Lit) : Value
  | ref (selectors : Selector) (transform : Lit → Lit) : Value
  | hook (h : ForwardHook) : Value

/-- The `ConfigRule` data of `config.py` (covering `ConfigRule`,
`ConfigRuleDefault` and `ConfigRuleWrapper`, which differ only in how the
fields are filled in).  `head` is the parsed key selector (`None` for the
synthetic placeholder rule built inside
`_take_most_specific_per_key_and_index`, whose key parses to the
`NoneSelector`).  `specificity` and `default` are class attributes in Python
(`1`/`False` on `ConfigRule`, `0`/`True` on `ConfigRuleDefault`) that are
shadowed by instance attributes in `ConfigRuleWrapper.__init__` and on the
synthetic placeholder; they are therefore per-rule data here. -/
structure ConfigRule : Type where
  selector : Selector
  head : Option Segment
  value : Value
  scope_root : Selector
  specificity : Int
  default : Bool

/-- `ConfigRule.key`: the rule key is `head.key()`; the key of the
`NoneSelector` head of the synthetic placeholder is modelled as the empty
string (it is never used for grouping). -/
def ConfigRule.key (r : ConfigRule) : String :=
  match r.head with
  | some s => s.key
  | Option.none => ""

/-- `ConfigRule.__init__`: a normal rule with specificity 1, no scope root
(`NoneSelector`), not a default. -/
def mkConfigRule (selector : Selector) (key : Segment) (value : Value) : ConfigRule :=
  { selector := selector, head := some key, value := value,
    scope_root := [], specificity := 1, default := false }

/-- `ConfigRuleDefault`: identical to `ConfigRule` except the class attributes
`specificity = 0` and `default = True`. -/
def mkConfigRuleDefault (selector : Selector) (key : Segment) (value : Value) : ConfigRule :=
  { selector := selector, head := some key, value := value,
    scope_root := [], specificity := 0, default := true }

/-- `ConfigRuleWrapper.__init__(selector, value, default)`: prefixes the
wrapped rule's selector and scope root with `selector` and copies `key`,
`head` and `value`.  When `default` is true the instance attributes
`specificity = 0` and `default = True` are set; otherwise attribute lookup on
the wrapper finds the class attributes of `ConfigRule` (`specificity = 1`,
`default = False`) - `ConfigRuleWrapper.__getattr__` is never consulted for
them because Python only calls `__getattr__` when ordinary lookup fails, so
the wrapped rule's own specificity is not inherited. -/
def ConfigRuleWrapper (selector : Selector) (r : ConfigRule) (default : Bool) : ConfigRule :=
  { selector := selector ++ r.selector,
    scope_root := selector ++ r.scope_root,
    head := r.head,
    value := r.value,
    specificity := if default then 0 else 1,
    default := default }

/-- `ConfigRule.is_more_specific_than`: more specific than nothing; otherwise
compare specificities, ties resolving to true (so the last rule registered
with equal specificity wins). -/
def ConfigRule.is_more_specific_than (self : ConfigRule) (other : Option ConfigRule) : Bool :=
  match other with
  | Option.none => true
  | some o =>
      if self.specificity ≠ o.specificity then self.specificity > o.specificity
      else true

/-- `ConfigRule.matches(context, match_key, allow_indexed)`: build the
effective selector (the rule selector, extended by `ClassSelector(self.key)`
when indexed heads may match under a plain key, or by the parsed head
otherwise, when key matching was requested), handle the `NoneSelector` cases
(two empty paths match, exactly one empty path never matches), then match the
pattern against the context. -/
def ConfigRule.matches (r : ConfigRule) (context : Selector)
    (match_key : Bool) (allow_indexed : Bool) : Bool :=
  let head : Selector :=
    if allow_indexed then [Segment.cls r.key]
    else match r.head with
      | some s => [s]
      | Option.none => []
  let full_selector := if match_key then r.selector ++ head else r.selector
  if full_selector.isEmpty && context.isEmpty then true
  else if full_selector.isEmpty || context.isEmpty then false
  else selMatch full_selector context

/-- Whether the rule's parsed key is an `IndexSelector`
(`isinstance(rule.head, IndexSelector)`). -/
def ConfigRule.headIsIndex (r : ConfigRule) : Bool :=
  match r.head with
  | some (Segment.index _ _ _) => true
  | _ => false

/-- The concrete index positions of the rule's head
(`rule.head.get_list_of_indices()`). -/
def ConfigRule.headIndices (r : ConfigRule) : List Nat :=
  match r.head with
  | some s => s.get_list_of_indices
  | Option.none => []

/-- The `Config` aggregate of `config.py`: the ordered rule list and the
current context.  The `_refs` table of named sub-configurations is carried by
every constructor call in the source but is never consulted by the operations
modelled here (`get`, `merge`, `populate`, rule resolution), so it is elided. -/
structure Config : Type where
  _rules : List ConfigRule
  _context : Selector

/-- The type of `Config.get` with the fuel already supplied: the signature
`get(self, selectors, default=default_obj, return_dict_if_multiple=False)`
with the absent-default sentinel modelled by `Option`. -/
abbrev GetFun := Config → Selector → Option Lit → Bool → Except PyErr Lit

/-- Python indexing `value[i]` on a resolved value: lists index positionally
(raising `IndexError` out of range), any non-sequence raises `TypeError`
(string indexing, unused by the engine, is elided). -/
def Lit.getItem : Lit → Nat → Except PyErr Lit
  | .list xs, i =>
      match xs[i]? with
      | some v => .ok v
      | Option.none => .error (.indexError "list index out of range")
  | _, _ => .error (.typeError "object is not subscriptable")

/-- Association-list lookup, modelling Python `dict` lookup (`d[k]` /
`k in d`). -/
def lookupA {κ α : Type} [DecidableEq κ] : List (κ × α) → κ → Option α
  | [], _ => Option.none
  | (k', v) :: rest, k => if k' = k then some v else lookupA rest k

/-- Association-list update, modelling Python `dict` assignment `d[k] = v`:
an existing key keeps its position, a new key is appended (insertion order). -/
def setA {κ α : Type} [DecidableEq κ] : List (κ × α) → κ → α → List (κ × α)
  | [], k, v => [(k, v)]
  | (k', v') :: rest, k, v =>
      if k' = k then (k, v) :: rest else (k', v') :: setA rest k v

/-- The keys of an association list in insertion order (`dict.keys()`). -/
def keysA {κ α : Type} (l : List (κ × α)) : List κ :=
  l.map Prod.fst

/-- `Config._take_most_specific_in_list`: start from `rules[0]` and replace the
candidate by every rule that `is_more_specific_than` it (the loop includes the
first rule itself, harmlessly).  On an empty list Python's `rules[0]` raises
`IndexError`. -/
def takeMostSpecificInList : List ConfigRule → Except PyErr ConfigRule
  | [] => .error (.indexError "list index out of range")
  | r :: rs =>
      .ok ((r :: rs).foldl
        (fun most_specific rule =>
          if rule.is_more_specific_than (some most_specific) then rule
          else most_specific) r)

/-- One iteration of the grouping loop of `Config._merge_rules_on_key`:
append the rule to its key's group, creating the group at the end when the
key is new (dict insertion order). -/
def addRuleOnKey (merged : List (String × List ConfigRule)) (rule : ConfigRule) :
    List (String × List ConfigRule) :=
  match lookupA merged rule.key with
  | some rs => setA merged rule.key (rs ++ [rule])
  | Option.none => merged ++ [(rule.key, [rule])]

/-- `Config._merge_rules_on_key`: group the matched rules by their key,
preserving both the first-seen key order and the rule order inside each
group (Python dict insertion order). -/
def mergeRulesOnKey (rules : List ConfigRule) : List (String × List ConfigRule) :=
  rules.foldl addRuleOnKey []

/-- One iteration of the first loop of
`Config._take_most_specific_per_key_and_index`: an index-headed rule is
appended to the rule list of every concrete index it enumerates (dict
insertion order), a non-indexed rule leaves the table unchanged (it goes to
`rule_if_no_indexed` instead). -/
def addIndexedRule (iv : List (Nat × List ConfigRule)) (rule : ConfigRule) :
    List (Nat × List ConfigRule) :=
  if rule.headIsIndex then
    rule.headIndices.foldl
      (fun iv' index =>
        match lookupA iv' index with
        | some rs => setA iv' index (rs ++ [rule])
        | Option.none => iv' ++ [(index, [rule])])
      iv
  else iv

/-- The first loop of `Config._take_most_specific_per_key_and_index`: collect,
for every concrete index enumerated by an index-headed rule, the list of rules
contributing to that index (dict insertion order). -/
def buildIndexedValues (rules : List ConfigRule) : List (Nat × List ConfigRule) :=
  rules.foldl addIndexedRule []

/-- `max(r.specificity for r in rules)`.  Python raises on an empty sequence;
the callers only apply this to the non-empty value lists of `indexed_values`,
so the empty case returns an arbitrary sentinel. -/
def maxSpec : List ConfigRule → Int
  | [] => -9999
  | r :: rs => rs.foldl (fun m x => max m x.specificity) r.specificity

/-- The synthetic placeholder `ConfigRule(NoneSelector(), "", [])` with
`specificity = -9999`, used when an indexed key group has no non-indexed
rule (parsing the empty key yields the `NoneSelector` head). -/
def leastSpecificRule : ConfigRule :=
  { selector := [], head := Option.none, value := .lit (.list []),
    scope_root := [], specificity := -9999, default := false }

/-- The broadcast-fill step of `_take_most_specific_per_key_and_index`: for a
position of the non-indexed winner's sequence, install the winner when the
position has no indexed rules or only indexed rules strictly less specific
than the winner. -/
def fillStep (msr : ConfigRule) (iv : List (Nat × List ConfigRule)) (idx : Nat) :
    List (Nat × List ConfigRule) :=
  match lookupA iv idx with
  | Option.none => setA iv idx [msr]
  | some rs => if msr.specificity > maxSpec rs then setA iv idx [msr] else iv

/-- The `most_specific_for_key` loop: for every index (in sorted order) take
the most specific rule of its list.  The lookup cannot fail because the
indices are exactly the keys of `indexed_values`; a failed lookup is modelled
as a `KeyError`-like fatal error. -/
def selectWinners (iv : List (Nat × List ConfigRule)) : List Nat → Except PyErr (List ConfigRule)
  | [] => .ok []
  | i :: rest => do
      match lookupA iv i with
      | Option.none => .error (.indexError "KeyError")
      | some rs => do
          let w ← takeMostSpecificInList rs
          let tail ← selectWinners iv rest
          .ok (w :: tail)

/-- `[most_specific_for_key[i].get_value(self) for i in indices]`, abstracted
over the `get` function used by `Ref` resolution. -/
def getValuesF (get_value : ConfigRule → Except PyErr Lit) :
    List ConfigRule → Except PyErr (List Lit)
  | [] => .ok []
  | r :: rest => do
      let v ← get_value r
      let tail ← getValuesF get_value rest
      .ok (v :: tail)

/-- The final loop of `_take_most_specific_per_key_and_index`: a per-position
value whose originating rule is not an index rule came from the broadcast
non-indexed winner and is indexed into by position
(`most_specific_values[i] = most_specific_values[i][i]`).  After the gap
assertion the sorted indices are exactly `0..max`, so the position of each
value in the list equals its index. -/
def broadcastAdjust : List ConfigRule → List Lit → List Nat → Except PyErr (List Lit)
  | w :: ws, v :: vs, i :: irest =>
      match (if w.headIsIndex then Except.ok v else Lit.getItem v i) with
      | .error e => .error e
      | .ok v' =>
          match broadcastAdjust ws vs irest with
          | .error e => .error e
          | .ok tail => .ok (v' :: tail)
  | _, _, _ => .ok []

/-- `ConfigRule.get_value(config)`, abstracted over the `Config.get` used for
`Ref` resolution (supplied with one unit of fuel less by `Config.get` below).
A `Ref` is resolved against a configuration sharing the rules (and refs) of
the owning configuration but rooted at the rule's `scope_root`, with
`return_dict_if_multiple=False` and no caller default, and the reference's
transform (`Ref.__call__`) is applied to the result.  A `ForwardHook` yields
its cached value (failing when the hook has not run).  Anything else is the
literal value. -/
def ConfigRule.get_valueF (get : GetFun) (r : ConfigRule) (cfg : Config) : Except PyErr Lit :=
  match r.value with
  | .ref selectors transform =>
      (get { _rules := cfg._rules, _context := r.scope_root } selectors Option.none false).map
        transform
  | .hook h => h.value
  | .lit v => .ok v

/-- The body of `Config._take_most_specific_per_key`: for each key in order,
resolve the most specific rule's value; a `ValueError` or `TypeError` (for
example a forward hook that has not been run yet) silently drops the key,
every other exception propagates. -/
def Config.takePerKeyF (get : GetFun) (cfg : Config) :
    List (String × List ConfigRule) → Except PyErr (List (String × Lit))
  | [] => .ok []
  | (key, rules) :: rest =>
      match (do
        let winner ← takeMostSpecificInList rules
        ConfigRule.get_valueF get winner cfg : Except PyErr Lit) with
      | .ok v => do
          let tail ← Config.takePerKeyF get cfg rest
          .ok ((key, v) :: tail)
      | .error e =>
          if e.isCaught then Config.takePerKeyF get cfg rest
          else .error e

/-- The per-key body of `Config._take_most_specific_per_key_and_index`:
partition the group into index-headed rules (contributing per position) and
non-indexed rules; resolve the most specific non-indexed rule (or the
synthetic placeholder); with no indexed rule at all that value is the result;
otherwise broadcast the winner's sequence position by position wherever no
indexed rule at least as specific exists, take the most specific rule per
index, assert the indices are gap-free from 0 to the maximum, resolve every
per-position value and index into values originating from the broadcast
winner. -/
def Config.processKeyIndexed (get : GetFun) (cfg : Config) (key : String)
    (rules : List ConfigRule) : Except PyErr Lit := do
  let indexed_values := buildIndexedValues rules
  let rule_if_no_indexed := rules.filter (fun r => !r.headIsIndex)
  let any_indexed := rules.any (fun r => r.headIsIndex)
  let rine := if rule_if_no_indexed.isEmpty then [leastSpecificRule] else rule_if_no_indexed
  let most_specific_rule_if_no_index ← takeMostSpecificInList rine
  let value_if_no_indexed ← ConfigRule.get_valueF get most_specific_rule_if_no_index cfg
  if !any_indexed then
    .ok value_if_no_indexed
  else
    let vniList :=
      match value_if_no_indexed with
      | .list xs => xs
      | v => [v]
    let iv := (List.range vniList.length).foldl (fillStep most_specific_rule_if_no_index)
      indexed_values
    let indices := List.insertionSort (· ≤ ·) (keysA iv)
    match indices.getLast? with
    | Option.none => .error (.indexError "list index out of range")
    | some lastIdx =>
        let missing := (List.range lastIdx).filter (fun i => !(indices.contains i))
        if missing.isEmpty then do
          let winners ← selectWinners iv indices
          let vals ← getValuesF (fun r => ConfigRule.get_valueF get r cfg) winners
          let final ← broadcastAdjust winners vals indices
          .ok (.list final)
        else
          .error (.assertionError ("Missing indices for key " ++ key))

/-- The loop of `Config._take_most_specific_per_key_and_index` over the key
groups (no exception is caught here, unlike `_take_most_specific_per_key`). -/
def Config.takePerKeyAndIndexF (get : GetFun) (cfg : Config) :
    List (String × List ConfigRule) → Except PyErr (List (String × Lit))
  | [] => .ok []
  | (key, rules) :: rest => do
      let v ← Config.processKeyIndexed get cfg key rules
      let tail ← Config.takePerKeyAndIndexF get cfg rest
      .ok ((key, v) :: tail)

/-- Whether an optional popped segment is an `IndexSelector`
(`isinstance(full_context.pop()[-1], IndexSelector)` — false for the
`NoneSelector` result of popping an empty path). -/
def isIndexOpt : Option Segment → Bool
  | some (Segment.index _ _ _) => true
  | _ => false

/-- The resolution pipeline of `Config.get` up to the `most_specific` mapping:
decide whether the final resolved segment is an index selector, collect the
rules matching the contextualized selectors (matching on key, allowing
indexed-head substitution only when the final segment is not an index), group
them by key, and reduce with the indexed algorithm (non-index-terminated
queries) or the plain most-specific-per-key reduction (index-terminated
queries). -/
def Config.resolveKeysF (get : GetFun) (cfg : Config) (selectors : Selector) :
    Except PyErr (List (String × Lit)) :=
  let full_context := cfg._context ++ selectors
  let last_selector_is_index := isIndexOpt (Selector.pop full_context).2
  let rules := cfg._rules.filter
    (fun r => r.matches full_context true (!last_selector_is_index))
  let rules_per_key := mergeRulesOnKey rules
  if !last_selector_is_index then Config.takePerKeyAndIndexF get cfg rules_per_key
  else Config.takePerKeyF get cfg rules_per_key

/-- The "no match" `ValueError` message of `Config.get`, naming the failed
contextualized selector (the rule dump `{self}` that Python appends is elided:
rule values contain functions with no printable form in the model). -/
def noMatchMsg (full_context : Selector) : String :=
  "No keys match for " ++ Selector.str full_context

/-- The "ambiguous match" `ValueError` message of `Config.get`, naming the
selectors and listing the conflicting keys. -/
def multiMatchMsg (selectors : Selector) (keys : List String) : String :=
  "Multiple keys match " ++ Selector.str selectors ++ " (" ++
    String.intercalate ", " keys ++ ")"

/-- `Config.get(selectors, default=default_obj, return_dict_if_multiple)`:
resolve the keys, then dispatch on how many resolved - zero yields the
caller-supplied default or a `ValueError` naming the failed selector, one
yields that value directly, several yield the key-to-value mapping when
requested and a `ValueError` listing the conflicting keys otherwise.  `fuel`
bounds the `Ref` recursion depth; running out models Python's
`RecursionError`. -/
def Config.get : Nat → Config → Selector → Option Lit → Bool → Except PyErr Lit
  | 0, _, _, _, _ => .error (.recursionError "maximum recursion depth exceeded")
  | Nat.succ fuel, cfg, selectors, default, return_dict_if_multiple =>
      match Config.resolveKeysF (fun c s d r => Config.get fuel c s d r) cfg selectors with
      | .error e => .error e
      | .ok most_specific =>
          match most_specific with
          | [] =>
              match default with
              | some d => .ok d
              | Option.none => .error (.valueError (noMatchMsg (cfg._context ++ selectors)))
          | [(_, v)] => .ok v
          | ms =>
              if return_dict_if_multiple then .ok (.dict ms)
              else .error (.valueError (multiMatchMsg selectors (ms.map Prod.fst)))

/-- `ConfigRule.get_value(config)` with an explicit fuel for the `Ref`
recursion. -/
def ConfigRule.get_value (fuel : Nat) (r : ConfigRule) (cfg : Config) : Except PyErr Lit :=
  ConfigRule.get_valueF (fun c s d rd => Config.get fuel c s d rd) r cfg

/-- `Config.merge(selectors, config, as_default, prepend)`: wrap every rule of
the source configuration with the destination's contextualized prefix (and
the default-forcing flag), concatenate into the rule list (prepended rules
lose ties against existing equal-specificity rules since later entries win),
rebind the receiver's rule list, and return a new `Config` carrying a copy of
the extended rule list and an empty context.  Python mutates `self._rules` in
place; the state passing is explicit here: the first component is the updated
receiver, the second the returned configuration. -/
def Config.merge (cfg : Config) (selectors : Selector) (config : Config)
    (as_default : Bool) (prepend : Bool) : Config × Config :=
  let additional_rules := config._rules.map
    (fun rule => ConfigRuleWrapper (cfg._context ++ selectors) rule as_default)
  let new_rules :=
    if prepend then additional_rules ++ cfg._rules else cfg._rules ++ additional_rules
  ({ cfg with _rules := new_rules }, { _rules := new_rules, _context := [] })

/-- The generator argument of `Config.populate`: a callable (invoked once per
index), a sized sequence (`hasattr(generator, "__len__")` holds), or an
unsized iterable consumed positionally (for example a generator expression,
possibly infinite). -/
inductive Gen : Type where
  | fn (f : Nat → Lit) : Gen
  | seq (xs : List Lit) : Gen
  | stream (f : Nat → Lit) : Gen

/-- `hasattr(generator, "__len__")`: only a sized sequence has a length. -/
def Gen.hasLen : Gen → Bool
  | .seq _ => true
  | _ => false

/-- `zip(integers_to_populate, generator)` after the
`if callable(generator): generator = [generator(i) for i in ...]` rewrite: a
callable is applied to each listed index, a sized sequence is zipped
positionally, an unsized iterable is consumed positionally. -/
def zipGen (ints : List Nat) : Gen → List (Nat × Lit)
  | .fn f => ints.map (fun i => (i, f i))
  | .seq xs => ints.zip xs
  | .stream f => ints.enum.map (fun p => (p.2, f p.1))

/-- `str(key)` for the key popped off the populate selectors: the plain name
of the popped segment (the empty string for the `NoneSelector`, whose
printable form is never used by the claims). -/
def popKeyStr (selectors : Selector) : String :=
  match (Selector.pop selectors).2 with
  | some s => s.key
  | Option.none => ""

/-- `Config.populate(selectors, generator, length)`: for an index-terminated
context, expand to one rule per index listed by the index head re-bounded
with `length`; otherwise warn when neither a `length` nor a sized generator
was given, cap at 256 (`length or 256`, so Python's falsy `0` also falls back
to 256), and append one rule per index with the context indexed at that
position.  Returns the configuration produced by `Config(self._rules,
self._refs)` (whose context is the `NoneSelector`), paired with whether the
unknown-length warning was emitted. -/
def Config.populate (cfg : Config) (selectors : Selector) (generator : Gen)
    (length : Option Nat) : Config × Bool :=
  let popped := Selector.pop selectors
  let sels := popped.1
  let keyStr := popKeyStr selectors
  let ctxPopped := Selector.pop cfg._context
  let body := ctxPopped.1
  match ctxPopped.2 with
  | some (Segment.index name idx _) =>
      let new_head := Segment.index name idx length
      let integers_to_populate := new_head.get_list_of_indices
      let pairs := zipGen integers_to_populate generator
      let new_rules := pairs.map (fun p =>
        mkConfigRule (Selector.setIndexLast (body ++ [Segment.cls name]) p.1 Option.none ++ sels)
          (Segment.cls keyStr) (.lit p.2))
      ({ _rules := cfg._rules ++ new_rules, _context := [] }, false)
  | _ =>
      let warn := length.isNone && !generator.hasLen
      let len := match length with
        | Option.none => 256
        | some 0 => 256
        | some n => n
      let pairs := zipGen (List.range len) generator
      let new_rules := pairs.map (fun p =>
        mkConfigRule (Selector.setIndexLast cfg._context p.1 Option.none ++ sels)
          (Segment.cls keyStr) (.lit p.2))
      ({ _rules := cfg._rules ++ new_rules, _context := [] }, warn)

/-! Scenario constructors used by the theorem statements below: rules with a
plain class-selector key and rules whose parsed key is a single concrete
`IndexSelector` position (as produced by `set` on an index-terminated
context), with the specificity left parametric so that normal rules
(specificity 1), default rules (specificity 0) and wrapped rules are all
instances. -/

/-- A rule binding key `k` (a plain class selector head) at the root with the
given specificity and literal value. -/
def plainRule (k : String) (s : Int) (v : Lit) : ConfigRule :=
  { selector := [], head := some (Segment.cls k), value := .lit v,
    scope_root := [], specificity := s, default := false }

/-- A rule whose parsed key is the single index position `pos` of `k`, with
the given specificity and literal value. -/
def idxRule (k : String) (pos : Nat) (s : Int) (v : Lit) : ConfigRule :=
  { selector := [], head := some (Segment.index k (some pos) Option.none),
    value := .lit v, scope_root := [], specificity := s, default := false }

/-- The configuration `Config().x.y(100)` extended with
`a.b = Ref("x.y", lambda v: v + 1)`: the `x.y` rule. -/
def refRuleXY : ConfigRule :=
  mkConfigRule [Segment.cls "x"] (Segment.cls "y") (.lit (.int 100))

/-- The transform `lambda v: v + 1` of the reference example (on the modelled
integer values). -/
def refIncr : Lit → Lit :=
  fun v => match v with
  | .int n => .int (n + 1)
  | v => v

/-- The rule `a.b = Ref("x.y", lambda v: v + 1)`. -/
def refRuleAB : ConfigRule :=
  mkConfigRule [Segment.cls "a"] (Segment.cls "b")
    (.ref [Segment.cls "x", Segment.cls "y"] refIncr)

/-- The configuration of the reference-resolution example. -/
def refCfg : Config := { _rules := [refRuleXY, refRuleAB], _context := [] }

/-- `Config().a(1)`, the receiver of the merge example. -/
def mergeC1 : Config :=
  { _rules := [mkConfigRule [] (Segment.cls "a") (.lit (.int 1))], _context := [] }

/-- `Config().b(2)`, the source of the merge example. -/
def mergeC2 : Config :=
  { _rules := [mkConfigRule [] (Segment.cls "b") (.lit (.int 2))], _context := [] }

end Deeplay

namespace Deeplay

/-! Helper lemmas. -/

theorem zip_self_eq_map (l : List Nat) : l.zip l = l.map (fun x => (x, x)) := by
  induction l with
  | nil => rfl
  | cons x xs ih => simp [ih]

theorem enum_range (n : Nat) :
    (List.range n).enum = (List.range n).map (fun i => (i, i)) := by
  simp [List.enum_eq_zip_range, List.length_range, zip_self_eq_map]

theorem zipGen_stream_range (n : Nat) (f : Nat → Lit) :
    zipGen (List.range n) (Gen.stream f) = (List.range n).map (fun i => (i, f i)) := by
  simp [zipGen, enum_range, List.map_map, Function.comp]

theorem ForwardHook.call_of_run (h : ForwardHook) (h1 : h.first_only = true)
    (h2 : h._has_run = true) (x : Lit) : h.call x = h := by
  simp [ForwardHook.call, h1, h2]

theorem foldl_call_of_run (h : ForwardHook) (h1 : h.first_only = true)
    (h2 : h._has_run = true) : ∀ xs : List Lit, xs.foldl ForwardHook.call h = h
  | [] => rfl
  | x :: xs => by
      rw [List.foldl_cons, ForwardHook.call_of_run h h1 h2,
        foldl_call_of_run h h1 h2 xs]

/-- C3 counterexample: wrapping the default rule `x.y = 5` (specificity 0)
without requesting default status yields a wrapper whose specificity is 1
(found on the `ConfigRule` class by ordinary attribute lookup), not the
wrapped rule's specificity 0 as the claim states. -/
theorem claim3_counterexample :
    (ConfigRuleWrapper [Segment.cls "p"]
      (mkConfigRuleDefault [Segment.cls "x"] (Segment.cls "y") (.lit (.int 5)))
      false).specificity ≠
    (mkConfigRuleDefault [Segment.cls "x"] (Segment.cls "y")
      (.lit (.int 5))).specificity := by
  decide

/-- C3 (amended): for every rule `r` wrapped by a `ConfigRuleWrapper` with
prefix selector `p`, the wrapper's selector equals `p ++ r.selector`, its
scope root equals `p ++ r.scope_root`, its head and value are the wrapped
rule's, and its specificity is 0 when the wrap requests default status and
otherwise 1 (the `ConfigRule` class default), regardless of the wrapped
rule's own specificity. -/
theorem claim3_wrapper_fields (p : Selector) (r : ConfigRule) (d : Bool) :
    (ConfigRuleWrapper p r d).selector = p ++ r.selector ∧
    (ConfigRuleWrapper p r d).scope_root = p ++ r.scope_root ∧
    (ConfigRuleWrapper p r d).head = r.head ∧
    (ConfigRuleWrapper p r d).value = r.value ∧
    (ConfigRuleWrapper p r d).specificity = (if d then 0 else 1) :=
  ⟨rfl, rfl, rfl, rfl, rfl⟩

/-- C7: reading a `ForwardHook`'s value before the trigger has run raises
`ValueError`; a hook with `first_only = True` that has been triggered once is
left unchanged by every further trigger, and its value keeps returning the
result of the first trigger. -/
theorem claim7_hook_gating (h : ForwardHook) (hr : h._has_run = false)
    (f : Lit → Lit) (x0 : Lit) (xs : List Lit) :
    h.value = .error (.valueError
      "Hook has not been run yet. Make sure the module is evaluated before the target is called.") ∧
    xs.foldl ForwardHook.call ((mkForwardHook f true).call x0) =
      (mkForwardHook f true).call x0 ∧
    ((mkForwardHook f true).call x0).value = .ok (f x0) := by
  refine ⟨?_, ?_, ?_⟩
  · simp [ForwardHook.value, hr]
  · exact foldl_call_of_run _ rfl rfl xs
  · rfl

/-- C7 witness: the untriggered hook errors; after one trigger of a
`first_only` hook, two further triggers leave the state unchanged and the
cached value is the first trigger's result. -/
theorem claim7_witness :
    (mkForwardHook (fun v => v) true)._has_run = false ∧
    ((mkForwardHook (fun v => v) true).value = .error (.valueError
      "Hook has not been run yet. Make sure the module is evaluated before the target is called.") ∧
    [Lit.int 1, Lit.int 2].foldl ForwardHook.call
        ((mkForwardHook (fun v => v) true).call (.int 7)) =
      (mkForwardHook (fun v => v) true).call (.int 7) ∧
    ((mkForwardHook (fun v => v) true).call (.int 7)).value = .ok (.int 7)) :=
  ⟨rfl, claim7_hook_gating (mkForwardHook (fun v => v) true) rfl
    (fun v => v) (.int 7) [Lit.int 1, Lit.int 2]⟩

/-- C5: a rule whose value is a `Ref` resolves it by a `get` on a
configuration with the same rules but whose context is the rule's
`scope_root`, with no caller default and `return_dict_if_multiple = False`
(so zero or ambiguous matches fail), and returns the reference's transform
applied to the looked-up value. -/
theorem claim5_ref_resolution (fuel : Nat) (r : ConfigRule) (cfg : Config)
    (tgt : Selector) (transform : Lit → Lit) (hv : r.value = .ref tgt transform) :
    ConfigRule.get_value fuel r cfg =
      (Config.get fuel { _rules := cfg._rules, _context := r.scope_root }
        tgt Option.none false).map transform := by
  simp [ConfigRule.get_value, ConfigRule.get_valueF, hv]

/-- C5 witness: in `Config().x.y(100).a.b(Ref("x.y", lambda v: v + 1))` the
rule `a.b` holds a reference, its `get_value` yields 101, and `get("a.b")`
returns 101. -/
theorem claim5_witness :
    refRuleAB.value = Value.ref [Segment.cls "x", Segment.cls "y"] refIncr ∧
    ConfigRule.get_value 2 refRuleAB refCfg = .ok (.int 101) ∧
    Config.get 3 refCfg [Segment.cls "a", Segment.cls "b"] Option.none false =
      .ok (.int 101) := by
  refine ⟨rfl, ?_, by rfl⟩
  rw [claim5_ref_resolution 2 refRuleAB refCfg [Segment.cls "x", Segment.cls "y"]
    refIncr rfl]
  rfl

/-- C10: `merge` rebinds the receiver's own rule list to include the wrapped
copies of the source's rules (its context unchanged), the returned
configuration carries an equal rule list, and concretely after
`c1 = Config().a(1)` merges `c2 = Config().b(2)` under `"other"` the receiver
itself resolves `other.b` to 2 (and still resolves `a` to 1): merge is not
side-effect-free on the receiver. -/
theorem claim10_merge_mutates_receiver (cfg src : Config) (sel : Selector) :
    (Config.merge cfg sel src false false).1._rules =
      cfg._rules ++ src._rules.map
        (fun r => ConfigRuleWrapper (cfg._context ++ sel) r false) ∧
    (Config.merge cfg sel src false false).1._context = cfg._context ∧
    (Config.merge cfg sel src false false).2._rules =
      (Config.merge cfg sel src false false).1._rules ∧
    Config.get 2 (Config.merge mergeC1 [Segment.cls "other"] mergeC2 false false).1
      [Segment.cls "other", Segment.cls "b"] Option.none false = .ok (.int 2) ∧
    Config.get 2 (Config.merge mergeC1 [Segment.cls "other"] mergeC2 false false).1
      [Segment.cls "a"] Option.none false = .ok (.int 1) :=
  ⟨rfl, rfl, rfl, by rfl, by rfl⟩

/-- C8: `populate` on a configuration whose context does not end in an index
selector, with no explicit length and a generator without a declared length,
appends exactly 256 rules, one per index 0 through 255 (the context indexed
at each position), and emits the 256-cap warning. -/
theorem claim8_populate_caps_at_256 (cfg : Config) (sel : Selector) (f : Nat → Lit)
    (hctx : isIndexOpt (Selector.pop cfg._context).2 = false) :
    (Config.populate cfg sel (Gen.stream f) Option.none).1._rules =
      cfg._rules ++ (List.range 256).map (fun i =>
        mkConfigRule (Selector.setIndexLast cfg._context i Option.none ++
            (Selector.pop sel).1)
          (Segment.cls (popKeyStr sel)) (.lit (f i))) ∧
    (Config.populate cfg sel (Gen.stream f) Option.none).2 = true ∧
    (Config.populate cfg sel (Gen.stream f) Option.none).1._rules.length =
      cfg._rules.length + 256 := by
  have hres : Config.populate cfg sel (Gen.stream f) Option.none =
      (Config.mk (cfg._rules ++ (List.range 256).map (fun i =>
          mkConfigRule (Selector.setIndexLast cfg._context i Option.none ++
              (Selector.pop sel).1)
            (Segment.cls (popKeyStr sel)) (.lit (f i)))) [], true) := by
    rcases hpop : (Selector.pop cfg._context).2 with _ | seg
    · simp only [Config.populate, hpop, zipGen_stream_range, List.map_map]
      rfl
    · cases seg with
      | index name idx len => rw [hpop] at hctx; simp [isIndexOpt] at hctx
      | cls name =>
          simp only [Config.populate, hpop, zipGen_stream_range, List.map_map]
          rfl
      | wildcard =>
          simp only [Config.populate, hpop, zipGen_stream_range, List.map_map]
          rfl
      | doubleWildcard =>
          simp only [Config.populate, hpop, zipGen_stream_range, List.map_map]
          rfl
  refine ⟨?_, ?_, ?_⟩
  · rw [hres]
  · rw [hres]
  · rw [hres]
    simp

/-- C8 witness: populating `items.v` from an unsized stream with no explicit
length appends exactly 256 rules and emits the cap warning. -/
theorem claim8_witness :
    isIndexOpt (Selector.pop ([Segment.cls "items"] : Selector)).2 = false ∧
    (Config.populate (Config.mk [] [Segment.cls "items"]) [Segment.cls "v"]
      (Gen.stream (fun i => Lit.int i)) Option.none).1._rules.length = 0 + 256 ∧
    (Config.populate (Config.mk [] [Segment.cls "items"]) [Segment.cls "v"]
      (Gen.stream (fun i => Lit.int i)) Option.none).2 = true := by
  refine ⟨rfl, ?_, ?_⟩
  · exact (claim8_populate_caps_at_256 (Config.mk [] [Segment.cls "items"])
      [Segment.cls "v"] (fun i => Lit.int i) rfl).2.2
  · exact (claim8_populate_caps_at_256 (Config.mk [] [Segment.cls "items"])
      [Segment.cls "v"] (fun i => Lit.int i) rfl).2.1

theorem is_more_specific_than_self (r : ConfigRule) :
    r.is_more_specific_than (some r) = true := by
  simp [ConfigRule.is_more_specific_than]

theorem takeMostSpecificInList_pair (a b : ConfigRule) :
    takeMostSpecificInList [a, b] =
      .ok (if b.specificity < a.specificity then a else b) := by
  simp only [takeMostSpecificInList, List.foldl_cons, List.foldl_nil,
    is_more_specific_than_self, if_true]
  by_cases h : b.specificity = a.specificity
  · simp [ConfigRule.is_more_specific_than, h]
  · simp only [ConfigRule.is_more_specific_than, ne_eq, h, not_false_eq_true,
      if_true, decide_eq_true_eq]
    split_ifs with h1 h2 h2 <;> first | rfl | omega

theorem get_valueF_lit (g : GetFun) (r : ConfigRule) (cfg : Config) (v : Lit)
    (hv : r.value = .lit v) : ConfigRule.get_valueF g r cfg = .ok v := by
  simp [ConfigRule.get_valueF, hv]

theorem foldl_congr_id {α β : Type} (l : List α) (f : β → α → β) (acc : β)
    (h : ∀ b a, a ∈ l → f b a = b) : l.foldl f acc = acc := by
  induction l generalizing acc with
  | nil => rfl
  | cons x xs ih =>
      rw [List.foldl_cons, h acc x (by simp)]
      exact ih acc (fun b a ha => h b a (by simp [ha]))

theorem addIndexedRule_not_indexed (iv : List (Nat × List ConfigRule))
    (r : ConfigRule) (h : r.headIsIndex = false) : addIndexedRule iv r = iv := by
  simp [addIndexedRule, h]

theorem buildIndexedValues_no_indexed (rules : List ConfigRule)
    (h : ∀ r ∈ rules, r.headIsIndex = false) : buildIndexedValues rules = [] := by
  unfold buildIndexedValues
  apply foldl_congr_id
  intro b r hr
  exact addIndexedRule_not_indexed b r (h r hr)

theorem except_bind_pure {α β : Type} (x : Except β α) :
    (do
      let v ← x
      Except.ok v : Except β α) = x := by
  cases x <;> rfl

theorem processKeyIndexed_no_indexed (g : GetFun) (cfg : Config) (k : String)
    (rules : List ConfigRule) (hne : rules ≠ [])
    (h : ∀ r ∈ rules, r.headIsIndex = false) :
    Config.processKeyIndexed g cfg k rules =
      (do
        let w ← takeMostSpecificInList rules
        ConfigRule.get_valueF g w cfg) := by
  unfold Config.processKeyIndexed
  have hf : rules.filter (fun r => !r.headIsIndex) = rules := by
    apply List.filter_eq_self.mpr
    intro r hr
    simp [h r hr]
  have ha : rules.any (fun r => r.headIsIndex) = false := by
    rw [List.any_eq_false]
    intro r hr
    simp [h r hr]
  have hie : rules.isEmpty = false := by
    cases rules with
    | nil => exact absurd rfl hne
    | cons x xs => rfl
  simp only [hf, ha, hie, Bool.false_eq_true, if_false, Bool.not_false, if_true]
  cases hw : takeMostSpecificInList rules with
  | error e => rfl
  | ok w => exact except_bind_pure (ConfigRule.get_valueF g w cfg)

theorem takePerKeyAndIndexF_singleton (g : GetFun) (cfg : Config) (k : String)
    (rules : List ConfigRule) (v : Lit)
    (h : Config.processKeyIndexed g cfg k rules = .ok v) :
    Config.takePerKeyAndIndexF g cfg [(k, rules)] = .ok [(k, v)] := by
  simp only [Config.takePerKeyAndIndexF, h]
  rfl

theorem takePerKeyF_singleton (g : GetFun) (cfg : Config) (k : String)
    (rules : List ConfigRule) (v : Lit)
    (h : (do
      let w ← takeMostSpecificInList rules
      ConfigRule.get_valueF g w cfg : Except PyErr Lit) = .ok v) :
    Config.takePerKeyF g cfg [(k, rules)] = .ok [(k, v)] := by
  simp only [Config.takePerKeyF, h]
  rfl

theorem mergeRulesOnKey_pair_same_key (a b : ConfigRule) (h : b.key = a.key) :
    mergeRulesOnKey [a, b] = [(a.key, [a, b])] := by
  simp [mergeRulesOnKey, addRuleOnKey, lookupA, setA, h]

/-- Resolution of a configuration holding exactly two rules on the same key,
both with plain class-selector heads and literal values, both matching the
queried context: `get` returns the first rule's value when the second is
strictly less specific and the second rule's value otherwise (equal
specificities resolve to the later rule). -/
theorem get_two_plain_rules (fuel : Nat) (ctx sel : Selector) (k : String)
    (a b : ConfigRule) (va vb : Lit)
    (hak : a.head = some (Segment.cls k)) (hbk : b.head = some (Segment.cls k))
    (hav : a.value = .lit va) (hbv : b.value = .lit vb)
    (hma : a.matches (ctx ++ sel) true
      (!isIndexOpt (Selector.pop (ctx ++ sel)).2) = true)
    (hmb : b.matches (ctx ++ sel) true
      (!isIndexOpt (Selector.pop (ctx ++ sel)).2) = true)
    (rdim : Bool) :
    Config.get (fuel + 1) (Config.mk [a, b] ctx) sel Option.none rdim =
      .ok (if b.specificity < a.specificity then va else vb) := by
  have hkey : b.key = a.key := by simp [ConfigRule.key, hak, hbk]
  have hka : a.key = k := by simp [ConfigRule.key, hak, Segment.key]
  have hhia : a.headIsIndex = false := by simp [ConfigRule.headIsIndex, hak]
  have hhib : b.headIsIndex = false := by simp [ConfigRule.headIsIndex, hbk]
  have hmem : ∀ r ∈ [a, b], r.headIsIndex = false := by
    intro r hr
    simp only [List.mem_cons, List.not_mem_nil, or_false] at hr
    rcases hr with rfl | rfl
    · exact hhia
    · exact hhib
  have hfilter : List.filter
      (fun r => r.matches (ctx ++ sel) true
        (!isIndexOpt (Selector.pop (ctx ++ sel)).2)) [a, b] = [a, b] := by
    simp [List.filter, hma, hmb]
  have hwin : (do
      let w ← takeMostSpecificInList [a, b]
      ConfigRule.get_valueF (fun c s d r => Config.get fuel c s d r) w
        (Config.mk [a, b] ctx) : Except PyErr Lit) =
      .ok (if b.specificity < a.specificity then va else vb) := by
    rw [takeMostSpecificInList_pair a b]
    by_cases hlt : b.specificity < a.specificity
    · simp only [hlt, if_true]
      exact (get_valueF_lit (fun c s d r => Config.get fuel c s d r)
        a (Config.mk [a, b] ctx) va hav).trans (by simp [hlt])
    · simp only [hlt, if_false]
      exact (get_valueF_lit (fun c s d r => Config.get fuel c s d r)
        b (Config.mk [a, b] ctx) vb hbv).trans (by simp [hlt])
  have hres : Config.resolveKeysF (fun c s d r => Config.get fuel c s d r)
      (Config.mk [a, b] ctx) sel =
      .ok [(a.key, if b.specificity < a.specificity then va else vb)] := by
    unfold Config.resolveKeysF
    simp only [hfilter, mergeRulesOnKey_pair_same_key a b hkey]
    cases hli : isIndexOpt (Selector.pop ((Config.mk [a, b] ctx)._context ++ sel)).2 with
    | false =>
        simp only [Bool.not_false, if_true]
        exact takePerKeyAndIndexF_singleton _ _ _ _ _
          ((processKeyIndexed_no_indexed _ _ _ [a, b] (by simp) hmem).trans hwin)
    | true =>
        simp only [Bool.not_true, Bool.false_eq_true, if_false]
        exact takePerKeyF_singleton _ _ _ _ _ hwin
  simp only [Config.get, hres]

/-- C1: with a normal rule (specificity 1) and a default rule (specificity 0)
on the same path and key, both matching the queried context, `get` returns
the normal rule's value in either registration order. -/
theorem claim1_specific_beats_default (fuel : Nat) (ctx sel s1 s2 : Selector)
    (k : String) (v1 v2 : Lit) (rdim : Bool)
    (hm1 : (mkConfigRule s1 (Segment.cls k) (.lit v1)).matches (ctx ++ sel) true
      (!isIndexOpt (Selector.pop (ctx ++ sel)).2) = true)
    (hm2 : (mkConfigRuleDefault s2 (Segment.cls k) (.lit v2)).matches (ctx ++ sel) true
      (!isIndexOpt (Selector.pop (ctx ++ sel)).2) = true) :
    Config.get (fuel + 1) (Config.mk [mkConfigRule s1 (Segment.cls k) (.lit v1),
        mkConfigRuleDefault s2 (Segment.cls k) (.lit v2)] ctx) sel Option.none rdim =
      .ok v1 ∧
    Config.get (fuel + 1) (Config.mk [mkConfigRuleDefault s2 (Segment.cls k) (.lit v2),
        mkConfigRule s1 (Segment.cls k) (.lit v1)] ctx) sel Option.none rdim =
      .ok v1 := by
  constructor
  · rw [get_two_plain_rules fuel ctx sel k _ _ v1 v2 rfl rfl rfl rfl hm1 hm2 rdim]
    norm_num [mkConfigRule, mkConfigRuleDefault]
  · rw [get_two_plain_rules fuel ctx sel k _ _ v2 v1 rfl rfl rfl rfl hm2 hm1 rdim]
    norm_num [mkConfigRule, mkConfigRuleDefault]

/-- C1 witness: rules `p.k = 1` (normal) and `p.k = 2` (default) both match
the query `p.k`, and `get` returns 1 in both registration orders. -/
theorem claim1_witness :
    ((mkConfigRule [Segment.cls "p"] (Segment.cls "k") (.lit (.int 1))).matches
      ([] ++ [Segment.cls "p", Segment.cls "k"]) true
      (!isIndexOpt (Selector.pop (([] : Selector) ++
        [Segment.cls "p", Segment.cls "k"])).2) = true) ∧
    ((mkConfigRuleDefault [Segment.cls "p"] (Segment.cls "k") (.lit (.int 2))).matches
      ([] ++ [Segment.cls "p", Segment.cls "k"]) true
      (!isIndexOpt (Selector.pop (([] : Selector) ++
        [Segment.cls "p", Segment.cls "k"])).2) = true) ∧
    Config.get 1 (Config.mk [mkConfigRule [Segment.cls "p"] (Segment.cls "k") (.lit (.int 1)),
        mkConfigRuleDefault [Segment.cls "p"] (Segment.cls "k") (.lit (.int 2))] [])
      [Segment.cls "p", Segment.cls "k"] Option.none false = .ok (.int 1) ∧
    Config.get 1 (Config.mk [mkConfigRuleDefault [Segment.cls "p"] (Segment.cls "k") (.lit (.int 2)),
        mkConfigRule [Segment.cls "p"] (Segment.cls "k") (.lit (.int 1))] [])
      [Segment.cls "p", Segment.cls "k"] Option.none false = .ok (.int 1) := by
  refine ⟨by rfl, by rfl, ?_, ?_⟩
  · exact (claim1_specific_beats_default 0 [] [Segment.cls "p", Segment.cls "k"]
      [Segment.cls "p"] [Segment.cls "p"] "k" (.int 1) (.int 2) false
      (by rfl) (by rfl)).1
  · exact (claim1_specific_beats_default 0 [] [Segment.cls "p", Segment.cls "k"]
      [Segment.cls "p"] [Segment.cls "p"] "k" (.int 1) (.int 2) false
      (by rfl) (by rfl)).2

/-- C2: with two equal-specificity rules on the same path and key, both
matching the queried context, `get` returns the value of the rule appearing
later in the rule list; and `is_more_specific_than` returns true on equal
specificities and true against `None`. -/
theorem claim2_later_rule_wins (fuel : Nat) (ctx sel s1 s2 : Selector)
    (k : String) (v1 v2 : Lit) (rdim : Bool)
    (hm1 : (mkConfigRule s1 (Segment.cls k) (.lit v1)).matches (ctx ++ sel) true
      (!isIndexOpt (Selector.pop (ctx ++ sel)).2) = true)
    (hm2 : (mkConfigRule s2 (Segment.cls k) (.lit v2)).matches (ctx ++ sel) true
      (!isIndexOpt (Selector.pop (ctx ++ sel)).2) = true) :
    Config.get (fuel + 1) (Config.mk [mkConfigRule s1 (Segment.cls k) (.lit v1),
        mkConfigRule s2 (Segment.cls k) (.lit v2)] ctx) sel Option.none rdim =
      .ok v2 ∧
    (∀ x y : ConfigRule, x.specificity = y.specificity →
      x.is_more_specific_than (some y) = true) ∧
    (∀ x : ConfigRule, x.is_more_specific_than Option.none = true) := by
  refine ⟨?_, ?_, fun x => rfl⟩
  · rw [get_two_plain_rules fuel ctx sel k _ _ v1 v2 rfl rfl rfl rfl hm1 hm2 rdim]
    norm_num [mkConfigRule]
  · intro x y h
    simp [ConfigRule.is_more_specific_than, h]

/-- C2 witness: two normal rules `p.k = 1` then `p.k = 2` both match the
query `p.k`, and `get` returns the later one's value 2. -/
theorem claim2_witness :
    ((mkConfigRule [Segment.cls "p"] (Segment.cls "k") (.lit (.int 1))).matches
      ([] ++ [Segment.cls "p", Segment.cls "k"]) true
      (!isIndexOpt (Selector.pop (([] : Selector) ++
        [Segment.cls "p", Segment.cls "k"])).2) = true) ∧
    Config.get 1 (Config.mk [mkConfigRule [Segment.cls "p"] (Segment.cls "k") (.lit (.int 1)),
        mkConfigRule [Segment.cls "p"] (Segment.cls "k") (.lit (.int 2))] [])
      [Segment.cls "p", Segment.cls "k"] Option.none false = .ok (.int 2) := by
  refine ⟨by rfl, ?_⟩
  exact (claim2_later_rule_wins 0 [] [Segment.cls "p", Segment.cls "k"]
    [Segment.cls "p"] [Segment.cls "p"] "k" (.int 1) (.int 2) false
    (by rfl) (by rfl)).1

/-- C6: `Config.get` dispatches on the number of resolved keys: zero keys
yield the caller-supplied default when one was given and otherwise a
`ValueError` naming the failed contextualized selector; exactly one key
yields its value directly; several keys yield the key-to-value mapping when
`return_dict_if_multiple` is true and otherwise a `ValueError` listing the
conflicting keys. -/
theorem claim6_get_dispatch (fuel : Nat) (cfg : Config) (sel : Selector)
    (dflt : Option Lit) (rdim : Bool) :
    (∀ d, Config.resolveKeysF (fun c s d2 r2 => Config.get fuel c s d2 r2) cfg sel =
        .ok [] → dflt = some d →
      Config.get (fuel + 1) cfg sel dflt rdim = .ok d) ∧
    (Config.resolveKeysF (fun c s d2 r2 => Config.get fuel c s d2 r2) cfg sel =
        .ok [] → dflt = Option.none →
      Config.get (fuel + 1) cfg sel dflt rdim =
        .error (.valueError (noMatchMsg (cfg._context ++ sel)))) ∧
    (∀ k v, Config.resolveKeysF (fun c s d2 r2 => Config.get fuel c s d2 r2) cfg sel =
        .ok [(k, v)] →
      Config.get (fuel + 1) cfg sel dflt rdim = .ok v) ∧
    (∀ e1 e2 rest, Config.resolveKeysF (fun c s d2 r2 => Config.get fuel c s d2 r2) cfg sel =
        .ok (e1 :: e2 :: rest) → rdim = true →
      Config.get (fuel + 1) cfg sel dflt rdim = .ok (.dict (e1 :: e2 :: rest))) ∧
    (∀ e1 e2 rest, Config.resolveKeysF (fun c s d2 r2 => Config.get fuel c s d2 r2) cfg sel =
        .ok (e1 :: e2 :: rest) → rdim = false →
      Config.get (fuel + 1) cfg sel dflt rdim =
        .error (.valueError (multiMatchMsg sel ((e1 :: e2 :: rest).map Prod.fst)))) := by
  refine ⟨?_, ?_, ?_, ?_, ?_⟩
  · intro d hres hd
    simp only [Config.get, hres, hd]
  · intro hres hd
    simp only [Config.get, hres, hd]
  · intro k v hres
    simp only [Config.get, hres]
  · intro e1 e2 rest hres hr
    simp only [Config.get, hres, hr, if_true]
  · intro e1 e2 rest hres hr
    simp only [Config.get, hres, hr, Bool.false_eq_true, if_false]

/-- C6 witness: `get` on an unset path with no default raises the no-match
`ValueError`; with an index-headed rule (key `layers`) and a wildcard-headed
rule (key `*`) both matching `layers[0]`, `get` returns a two-entry mapping
when a dict result is requested and otherwise raises the ambiguous-match
`ValueError` listing both keys. -/
theorem claim6_witness :
    Config.get 1 (Config.mk [] []) [Segment.cls "z"] Option.none false =
      .error (.valueError (noMatchMsg [Segment.cls "z"])) ∧
    Config.get 1 (Config.mk [idxRule "layers" 0 1 (.int 1),
        mkConfigRule [] Segment.wildcard (.lit (.int 2))] [])
      [Segment.index "layers" (some 0) Option.none] Option.none true =
      .ok (.dict [("layers", .int 1), ("*", .int 2)]) ∧
    Config.get 1 (Config.mk [idxRule "layers" 0 1 (.int 1),
        mkConfigRule [] Segment.wildcard (.lit (.int 2))] [])
      [Segment.index "layers" (some 0) Option.none] Option.none false =
      .error (.valueError (multiMatchMsg [Segment.index "layers" (some 0) Option.none]
        ["layers", "*"])) := by
  refine ⟨?_, ?_, ?_⟩
  · exact (claim6_get_dispatch 0 (Config.mk [] []) [Segment.cls "z"]
      Option.none false).2.1 (by rfl) rfl
  · exact (claim6_get_dispatch 0 (Config.mk [idxRule "layers" 0 1 (.int 1),
      mkConfigRule [] Segment.wildcard (.lit (.int 2))] [])
      [Segment.index "layers" (some 0) Option.none] Option.none true).2.2.2.1
      ("layers", .int 1) ("*", .int 2) [] (by rfl) rfl
  · exact (claim6_get_dispatch 0 (Config.mk [idxRule "layers" 0 1 (.int 1),
      mkConfigRule [] Segment.wildcard (.lit (.int 2))] [])
      [Segment.index "layers" (some 0) Option.none] Option.none false).2.2.2.2
      ("layers", .int 1) ("*", .int 2) [] (by rfl) rfl

/-! Association-list lemmas, for the `indexed_values` dict of
`_take_most_specific_per_key_and_index`. -/

theorem keysA_cons {κ α : Type} (p : κ × α) (l : List (κ × α)) :
    keysA (p :: l) = p.1 :: keysA l := rfl

theorem lookupA_eq_none {κ α : Type} [DecidableEq κ] (l : List (κ × α)) (k : κ) :
    lookupA l k = Option.none ↔ k ∉ keysA l := by
  induction l with
  | nil => simp [lookupA, keysA]
  | cons p rest ih =>
      obtain ⟨k', v⟩ := p
      rw [keysA_cons]
      by_cases h : k' = k
      · subst h
        simp [lookupA]
      · simp only [lookupA, h, if_false, ih, List.mem_cons, not_or]
        constructor
        · intro hn
          exact ⟨fun hc => h hc.symm, hn⟩
        · intro hn
          exact hn.2

theorem mem_keysA_iff_lookupA {κ α : Type} [DecidableEq κ] (l : List (κ × α)) (k : κ) :
    k ∈ keysA l ↔ lookupA l k ≠ Option.none := by
  rw [ne_eq, lookupA_eq_none, not_not]

theorem lookupA_setA_eq {κ α : Type} [DecidableEq κ] (l : List (κ × α)) (k : κ) (v : α) :
    lookupA (setA l k v) k = some v := by
  induction l with
  | nil => simp [setA, lookupA]
  | cons p rest ih =>
      obtain ⟨k', v'⟩ := p
      by_cases h : k' = k <;> simp [setA, lookupA, h, ih]

theorem lookupA_setA_ne {κ α : Type} [DecidableEq κ] (l : List (κ × α)) (k j : κ)
    (v : α) (h : j ≠ k) : lookupA (setA l k v) j = lookupA l j := by
  induction l with
  | nil => simp [setA, lookupA, Ne.symm h]
  | cons p rest ih =>
      obtain ⟨k', v'⟩ := p
      by_cases hk : k' = k
      · subst hk
        simp [setA, lookupA, Ne.symm h]
      · simp [setA, lookupA, hk, ih]

theorem keysA_setA_mem {κ α : Type} [DecidableEq κ] (l : List (κ × α)) (k : κ)
    (v : α) (h : k ∈ keysA l) : keysA (setA l k v) = keysA l := by
  induction l with
  | nil => cases h
  | cons p rest ih =>
      obtain ⟨k', v'⟩ := p
      by_cases hk : k' = k
      · subst hk
        simp [setA, keysA]
      · have hmem : k ∈ keysA rest := by
          rw [keysA_cons] at h
          rcases List.mem_cons.mp h with hc | hc
          · exact absurd hc.symm hk
          · exact hc
        rw [show setA ((k', v') :: rest) k v = (k', v') :: setA rest k v from by
          simp [setA, hk]]
        rw [keysA_cons, keysA_cons, ih hmem]

theorem setA_not_mem {κ α : Type} [DecidableEq κ] (l : List (κ × α)) (k : κ)
    (v : α) (h : k ∉ keysA l) : setA l k v = l ++ [(k, v)] := by
  induction l with
  | nil => rfl
  | cons p rest ih =>
      obtain ⟨k', v'⟩ := p
      have hk : k' ≠ k := by
        rintro rfl
        exact h (List.mem_cons_self _ _)
      simp only [setA, hk, if_false, List.cons_append, List.cons.injEq, true_and]
      exact ih (fun hm => h (List.mem_cons_of_mem _ hm))

theorem lookupA_map_pair {γ β : Type} (l : List γ) (pf : γ → Nat) (F : γ → β)
    (j : Nat) :
    lookupA (l.map (fun e => (pf e, F e))) j =
      (l.find? (fun e => pf e == j)).map F := by
  induction l with
  | nil => rfl
  | cons e rest ih =>
      by_cases h : pf e = j
      · simp [lookupA, List.find?_cons_of_pos, h]
      · rw [List.map_cons, List.find?_cons_of_neg _ (by simp [h])]
        simpa [lookupA, h] using ih

theorem keysA_map_pair {γ β : Type} (l : List γ) (pf : γ → Nat) (F : γ → β) :
    keysA (l.map (fun e => (pf e, F e))) = l.map pf := by
  simp [keysA, List.map_map]

/-! Lemmas on the broadcast-fill fold of
`_take_most_specific_per_key_and_index`. -/

theorem lookupA_fillStep_ne (m : ConfigRule) (iv : List (Nat × List ConfigRule))
    (idx j : Nat) (h : j ≠ idx) :
    lookupA (fillStep m iv idx) j = lookupA iv j := by
  unfold fillStep
  cases hl : lookupA iv idx with
  | none =>
      show lookupA (setA iv idx [m]) j = lookupA iv j
      exact lookupA_setA_ne _ _ _ _ h
  | some rs =>
      show lookupA (if m.specificity > maxSpec rs then setA iv idx [m] else iv) j =
        lookupA iv j
      by_cases hs : m.specificity > maxSpec rs
      · simp only [hs, if_true]
        exact lookupA_setA_ne _ _ _ _ h
      · simp only [hs, if_false]

theorem lookupA_fillStep_eq (m : ConfigRule) (iv : List (Nat × List ConfigRule))
    (idx : Nat) :
    lookupA (fillStep m iv idx) idx =
      some (match lookupA iv idx with
        | Option.none => [m]
        | some rs => if m.specificity > maxSpec rs then [m] else rs) := by
  unfold fillStep
  cases hl : lookupA iv idx with
  | none =>
      show lookupA (setA iv idx [m]) idx = some [m]
      exact lookupA_setA_eq _ _ _
  | some rs =>
      show lookupA (if m.specificity > maxSpec rs then setA iv idx [m] else iv) idx =
        some (if m.specificity > maxSpec rs then [m] else rs)
      by_cases hs : m.specificity > maxSpec rs
      · simp only [hs, if_true]
        exact lookupA_setA_eq _ _ _
      · simp only [hs, if_false, hl]

theorem keysA_fillStep_nodup (m : ConfigRule) (iv : List (Nat × List ConfigRule))
    (idx : Nat) (h : (keysA iv).Nodup) : (keysA (fillStep m iv idx)).Nodup := by
  unfold fillStep
  cases hl : lookupA iv idx with
  | none =>
      show (keysA (setA iv idx [m])).Nodup
      rw [setA_not_mem _ _ _ ((lookupA_eq_none _ _).mp hl)]
      simp only [keysA, List.map_append, List.map_cons, List.map_nil]
      rw [List.nodup_append]
      exact ⟨h, List.nodup_singleton _,
        by simpa [keysA] using (lookupA_eq_none _ _).mp hl⟩
  | some rs =>
      show (keysA (if m.specificity > maxSpec rs then setA iv idx [m] else iv)).Nodup
      by_cases hs : m.specificity > maxSpec rs
      · simp only [hs, if_true]
        rw [keysA_setA_mem _ _ _ ((mem_keysA_iff_lookupA _ _).mpr (by simp [hl]))]
        exact h
      · simp only [hs, if_false]
        exact h

theorem lookupA_foldl_fillStep_not_mem (m : ConfigRule) (l : List Nat)
    (iv : List (Nat × List ConfigRule)) (j : Nat) (h : j ∉ l) :
    lookupA (l.foldl (fillStep m) iv) j = lookupA iv j := by
  induction l generalizing iv with
  | nil => rfl
  | cons x xs ih =>
      rw [List.foldl_cons, ih _ (fun hm => h (List.mem_cons_of_mem _ hm))]
      exact lookupA_fillStep_ne m iv x j
        (fun he => h (he ▸ List.mem_cons_self _ _))

theorem lookupA_foldl_fillStep_mem (m : ConfigRule) (l : List Nat)
    (iv : List (Nat × List ConfigRule)) (j : Nat) (hnd : l.Nodup) (h : j ∈ l) :
    lookupA (l.foldl (fillStep m) iv) j =
      some (match lookupA iv j with
        | Option.none => [m]
        | some rs => if m.specificity > maxSpec rs then [m] else rs) := by
  induction l generalizing iv with
  | nil => cases h
  | cons x xs ih =>
      rw [List.foldl_cons]
      rcases List.mem_cons.mp h with rfl | hmem
      · rw [lookupA_foldl_fillStep_not_mem m xs _ j (List.nodup_cons.mp hnd).1]
        exact lookupA_fillStep_eq m iv j
      · have hne : j ≠ x := by
          rintro rfl
          exact (List.nodup_cons.mp hnd).1 hmem
        rw [ih (fillStep m iv x) (List.nodup_cons.mp hnd).2 hmem,
          lookupA_fillStep_ne m iv x j hne]

theorem keysA_foldl_fillStep_nodup (m : ConfigRule) (l : List Nat)
    (iv : List (Nat × List ConfigRule)) (h : (keysA iv).Nodup) :
    (keysA (l.foldl (fillStep m) iv)).Nodup := by
  induction l generalizing iv with
  | nil => exact h
  | cons x xs ih => exact ih _ (keysA_fillStep_nodup m iv x h)

theorem mem_keysA_foldl_fillStep (m : ConfigRule) (l : List Nat)
    (iv : List (Nat × List ConfigRule)) (j : Nat) (hnd : l.Nodup) :
    j ∈ keysA (l.foldl (fillStep m) iv) ↔ j ∈ keysA iv ∨ j ∈ l := by
  by_cases hj : j ∈ l
  · rw [mem_keysA_iff_lookupA, lookupA_foldl_fillStep_mem m l iv j hnd hj]
    simp [hj]
  · rw [mem_keysA_iff_lookupA, lookupA_foldl_fillStep_not_mem m l iv j hj,
      ← mem_keysA_iff_lookupA]
    simp [hj]

/-! Sorting and enumeration lemmas for the `indices` list. -/

theorem insertionSort_eq_range (l : List Nat) (n : Nat) (hnd : l.Nodup)
    (hmem : ∀ j, j ∈ l ↔ j ∈ List.range n) :
    List.insertionSort (· ≤ ·) l = List.range n := by
  have hperm : List.Perm (List.insertionSort (· ≤ ·) l) (List.range n) :=
    (List.perm_insertionSort _ l).trans
      ((List.perm_ext_iff_of_nodup hnd (List.nodup_range n)).mpr hmem)
  exact List.eq_of_perm_of_sorted hperm (List.sorted_insertionSort _ l)
    (List.sorted_le_range n)

theorem getLast_range_succ (n : Nat) : (List.range (n + 1)).getLast? = some n := by
  rw [List.range_succ]
  exact List.getLast?_concat _

theorem range_filter_missing_eq_nil (n m : Nat) (h : m ≤ n) :
    (List.range m).filter (fun i => !((List.range n).contains i)) = [] := by
  apply List.filter_eq_nil_iff.mpr
  intro i hi
  simp only [List.mem_range] at hi
  simp [List.mem_range]
  omega

/-! Bind-reduction helpers for `Except` and the success-path lemmas of the
indexed-resolution loops. -/

theorem okBind {ε α β : Type} (x : α) (f : α → Except ε β) :
    ((Except.ok x : Except ε α) >>= f) = f x := rfl

theorem errorBind {ε α β : Type} (e : ε) (f : α → Except ε β) :
    ((Except.error e : Except ε α) >>= f) = .error e := rfl

theorem lookupA_append_of_none {κ α : Type} [DecidableEq κ]
    (l1 l2 : List (κ × α)) (k : κ) (h : lookupA l1 k = Option.none) :
    lookupA (l1 ++ l2) k = lookupA l2 k := by
  induction l1 with
  | nil => rfl
  | cons p rest ih =>
      obtain ⟨k', v⟩ := p
      by_cases hk : k' = k
      · simp [lookupA, hk] at h
      · simp only [lookupA, hk, if_false, List.cons_append] at h ⊢
        exact ih h

theorem addIndexedRule_single (iv : List (Nat × List ConfigRule)) (r : ConfigRule)
    (p : Nat) (hh : r.headIsIndex = true) (hi : r.headIndices = [p])
    (hl : lookupA iv p = Option.none) :
    addIndexedRule iv r = iv ++ [(p, [r])] := by
  unfold addIndexedRule
  rw [hh, if_pos rfl, hi, List.foldl_cons, List.foldl_nil, hl]

theorem foldl_addIndexedRule_singletons (k : String) (irl : List (Nat × Int × Lit)) :
    ∀ acc : List (Nat × List ConfigRule),
      (irl.map (fun e => e.1)).Nodup →
      (∀ e ∈ irl, lookupA acc e.1 = Option.none) →
      (irl.map (fun e => idxRule k e.1 e.2.1 e.2.2)).foldl addIndexedRule acc =
        acc ++ irl.map (fun e => (e.1, [idxRule k e.1 e.2.1 e.2.2])) := by
  induction irl with
  | nil =>
      intro acc _ _
      show acc = acc ++ []
      rw [List.append_nil]
  | cons e rest ih =>
      intro acc hnd hnone
      have hnd2 : e.1 ∉ rest.map (fun e => e.1) ∧
          (rest.map (fun e => e.1)).Nodup := by
        rw [List.map_cons] at hnd
        exact List.nodup_cons.mp hnd
      rw [List.map_cons, List.foldl_cons,
        addIndexedRule_single acc (idxRule k e.1 e.2.1 e.2.2) e.1 rfl rfl
          (hnone e (List.mem_cons_self _ _))]
      rw [ih (acc ++ [(e.1, [idxRule k e.1 e.2.1 e.2.2])]) hnd2.2 ?_]
      · simp
      · intro f hf
        rw [lookupA_append_of_none _ _ _ (hnone f (List.mem_cons_of_mem _ hf))]
        have hne : f.1 ≠ e.1 := by
          intro hc
          exact hnd2.1 (hc ▸ List.mem_map_of_mem (fun x => x.1) hf)
        simp [lookupA, Ne.symm hne]

theorem buildIndexedValues_plain_cons (r0 : ConfigRule)
    (h0 : r0.headIsIndex = false) (rs : List ConfigRule) :
    buildIndexedValues (r0 :: rs) = rs.foldl addIndexedRule [] := by
  unfold buildIndexedValues
  rw [List.foldl_cons, addIndexedRule_not_indexed _ _ h0]

theorem filter_not_indexed_map (k : String) (irl : List (Nat × Int × Lit)) :
    (irl.map (fun e => idxRule k e.1 e.2.1 e.2.2)).filter
      (fun r => !r.headIsIndex) = [] := by
  apply List.filter_eq_nil_iff.mpr
  intro r hr
  obtain ⟨e, _, rfl⟩ := List.mem_map.mp hr
  simp [idxRule, ConfigRule.headIsIndex]

theorem takeMostSpecificInList_singleton (r : ConfigRule) :
    takeMostSpecificInList [r] = .ok r := by
  simp [takeMostSpecificInList, is_more_specific_than_self]

theorem selectWinners_map (iv : List (Nat × List ConfigRule)) (l : List Nat)
    (w : Nat → ConfigRule) (h : ∀ j ∈ l, lookupA iv j = some [w j]) :
    selectWinners iv l = .ok (l.map w) := by
  induction l with
  | nil => rfl
  | cons j rest ih =>
      unfold selectWinners
      rw [h j (List.mem_cons_self _ _)]
      show (do
        let w2 ← takeMostSpecificInList [w j]
        let tail ← selectWinners iv rest
        Except.ok (w2 :: tail)) = _
      rw [takeMostSpecificInList_singleton,
        ih (fun x hx => h x (List.mem_cons_of_mem _ hx))]
      rfl

theorem getValuesF_map_idx (gv : ConfigRule → Except PyErr Lit) (l : List Nat)
    (w : Nat → ConfigRule) (val : Nat → Lit)
    (h : ∀ j ∈ l, gv (w j) = .ok (val j)) :
    getValuesF gv (l.map w) = .ok (l.map val) := by
  induction l with
  | nil => rfl
  | cons j rest ih =>
      rw [List.map_cons]
      unfold getValuesF
      rw [h j (List.mem_cons_self _ _),
        ih (fun x hx => h x (List.mem_cons_of_mem _ hx))]
      rfl

theorem broadcastAdjust_map_idx (w : Nat → ConfigRule) (val fin : Nat → Lit)
    (l : List Nat)
    (h : ∀ j ∈ l, (if (w j).headIsIndex then Except.ok (val j)
      else Lit.getItem (val j) j) = .ok (fin j)) :
    broadcastAdjust (l.map w) (l.map val) l = .ok (l.map fin) := by
  induction l with
  | nil => rfl
  | cons j rest ih =>
      rw [List.map_cons, List.map_cons]
      unfold broadcastAdjust
      rw [h j (List.mem_cons_self _ _),
        ih (fun x hx => h x (List.mem_cons_of_mem _ hx))]
      rfl

theorem getItem_list_of_lt (xs : List Lit) (j : Nat) (h : j < xs.length) :
    Lit.getItem (.list xs) j = .ok (xs.getD j Lit.none) := by
  show (match xs[j]? with
    | some v => (Except.ok v : Except PyErr Lit)
    | Option.none => .error (.indexError "list index out of range")) =
    .ok (xs.getD j Lit.none)
  rw [List.getElem?_eq_getElem h]
  simp [List.getD, List.getElem?_eq_getElem h]

/-- The run of the per-key body of `_take_most_specific_per_key_and_index` on
the broadcast scenario of the claim: one non-indexed rule of specificity `s0`
providing the sequence `vs`, plus one index-headed rule per position in `irl`
(distinct positions, all below the sequence length).  Every position with an
indexed rule at least as specific as the non-indexed winner resolves to that
indexed rule's value, every other position to the corresponding element of
the winner's sequence. -/
theorem processKeyIndexed_broadcast (g : GetFun) (cfg : Config) (k : String)
    (s0 : Int) (vs : List Lit) (irl : List (Nat × Int × Lit))
    (hne : irl ≠ []) (hnd : (irl.map (fun e => e.1)).Nodup)
    (hlt : ∀ e ∈ irl, e.1 < vs.length) :
    Config.processKeyIndexed g cfg k
      (plainRule k s0 (.list vs) :: irl.map (fun e => idxRule k e.1 e.2.1 e.2.2)) =
      .ok (.list ((List.range vs.length).map (fun j =>
        match irl.find? (fun e => e.1 == j) with
        | some e => if s0 > e.2.1 then vs.getD j Lit.none else e.2.2
        | Option.none => vs.getD j Lit.none))) := by
  have hN : 0 < vs.length := by
    rcases irl with _ | ⟨e, rest⟩
    · exact absurd rfl hne
    · have := hlt e (List.mem_cons_self _ _)
      omega
  obtain ⟨M, hM⟩ : ∃ M, vs.length = M + 1 := ⟨vs.length - 1, by omega⟩
  have hiv : buildIndexedValues
      (plainRule k s0 (.list vs) :: irl.map (fun e => idxRule k e.1 e.2.1 e.2.2)) =
      irl.map (fun e => (e.1, [idxRule k e.1 e.2.1 e.2.2])) := by
    rw [buildIndexedValues_plain_cons (plainRule k s0 (.list vs)) rfl]
    exact foldl_addIndexedRule_singletons k irl [] hnd (fun e he => rfl)
  have hfilterc : (plainRule k s0 (.list vs) ::
      irl.map (fun e => idxRule k e.1 e.2.1 e.2.2)).filter
      (fun r => !r.headIsIndex) = [plainRule k s0 (.list vs)] := by
    rw [List.filter_cons_of_pos (by rfl), filter_not_indexed_map]
  have hany : (plainRule k s0 (.list vs) ::
      irl.map (fun e => idxRule k e.1 e.2.1 e.2.2)).any
      (fun r => r.headIsIndex) = true := by
    rcases irl with _ | ⟨e, rest⟩
    · exact absurd rfl hne
    · refine List.any_eq_true.mpr ⟨idxRule k e.1 e.2.1 e.2.2, ?_, rfl⟩
      simp
  have hgv : ConfigRule.get_valueF g (plainRule k s0 (.list vs)) cfg =
      .ok (.list vs) := rfl
  have hlk0 : ∀ j : Nat,
      lookupA (irl.map (fun e => (e.1, [idxRule k e.1 e.2.1 e.2.2]))) j =
        (irl.find? (fun e => e.1 == j)).map
          (fun e => [idxRule k e.1 e.2.1 e.2.2]) :=
    fun j => lookupA_map_pair irl (fun e => e.1)
      (fun e => [idxRule k e.1 e.2.1 e.2.2]) j
  have hfill : ∀ j ∈ List.range vs.length,
      lookupA ((List.range vs.length).foldl (fillStep (plainRule k s0 (.list vs)))
        (irl.map (fun e => (e.1, [idxRule k e.1 e.2.1 e.2.2])))) j =
      some [match irl.find? (fun e => e.1 == j) with
        | some e => if s0 > e.2.1 then plainRule k s0 (.list vs)
            else idxRule k e.1 e.2.1 e.2.2
        | Option.none => plainRule k s0 (.list vs)] := by
    intro j hj
    rw [lookupA_foldl_fillStep_mem _ _ _ j (List.nodup_range _) hj, hlk0 j]
    cases hfind : irl.find? (fun e => e.1 == j) with
    | none => rfl
    | some e =>
        show some (if (plainRule k s0 (Lit.list vs)).specificity >
            maxSpec [idxRule k e.1 e.2.1 e.2.2] then [plainRule k s0 (Lit.list vs)]
            else [idxRule k e.1 e.2.1 e.2.2]) =
          some [if s0 > e.2.1 then plainRule k s0 (Lit.list vs)
            else idxRule k e.1 e.2.1 e.2.2]
        by_cases hs : s0 > e.2.1
        · rw [if_pos (show (plainRule k s0 (Lit.list vs)).specificity >
            maxSpec [idxRule k e.1 e.2.1 e.2.2] from hs), if_pos hs]
        · rw [if_neg (show ¬ (plainRule k s0 (Lit.list vs)).specificity >
            maxSpec [idxRule k e.1 e.2.1 e.2.2] from hs), if_neg hs]
  have hkeys0 : keysA (irl.map (fun e => (e.1, [idxRule k e.1 e.2.1 e.2.2]))) =
      irl.map (fun e => e.1) :=
    keysA_map_pair irl (fun e => e.1) (fun e => [idxRule k e.1 e.2.1 e.2.2])
  have hindices : List.insertionSort (· ≤ ·)
      (keysA ((List.range vs.length).foldl (fillStep (plainRule k s0 (.list vs)))
        (irl.map (fun e => (e.1, [idxRule k e.1 e.2.1 e.2.2]))))) =
      List.range vs.length := by
    apply insertionSort_eq_range
    · apply keysA_foldl_fillStep_nodup
      rw [hkeys0]
      exact hnd
    · intro j
      rw [mem_keysA_foldl_fillStep _ _ _ j (List.nodup_range _), hkeys0]
      constructor
      · rintro (hm | hm)
        · obtain ⟨e, he, rfl⟩ := List.mem_map.mp hm
          exact List.mem_range.mpr (hlt e he)
        · exact hm
      · intro hm
        exact Or.inr hm
  have hlast : (List.range vs.length).getLast? = some M := by
    rw [hM]
    exact getLast_range_succ M
  have hval : ∀ j ∈ List.range vs.length,
      ConfigRule.get_valueF g
        (match irl.find? (fun e => e.1 == j) with
          | some e => if s0 > e.2.1 then plainRule k s0 (.list vs)
              else idxRule k e.1 e.2.1 e.2.2
          | Option.none => plainRule k s0 (.list vs)) cfg =
      .ok (match irl.find? (fun e => e.1 == j) with
          | some e => if s0 > e.2.1 then Lit.list vs else e.2.2
          | Option.none => Lit.list vs) := by
    intro j hj
    cases hfind : irl.find? (fun e => e.1 == j) with
    | none => rfl
    | some e =>
        show ConfigRule.get_valueF g (if s0 > e.2.1 then plainRule k s0 (Lit.list vs)
            else idxRule k e.1 e.2.1 e.2.2) cfg =
          .ok (if s0 > e.2.1 then Lit.list vs else e.2.2)
        by_cases hs : s0 > e.2.1
        · rw [if_pos hs, if_pos hs]
          exact hgv
        · rw [if_neg hs, if_neg hs]
          rfl
  have hfin : ∀ j ∈ List.range vs.length,
      (if ConfigRule.headIsIndex (match irl.find? (fun e => e.1 == j) with
          | some e => if s0 > e.2.1 then plainRule k s0 (.list vs)
              else idxRule k e.1 e.2.1 e.2.2
          | Option.none => plainRule k s0 (.list vs)) then
        Except.ok (match irl.find? (fun e => e.1 == j) with
          | some e => if s0 > e.2.1 then Lit.list vs else e.2.2
          | Option.none => Lit.list vs)
      else Lit.getItem (match irl.find? (fun e => e.1 == j) with
          | some e => if s0 > e.2.1 then Lit.list vs else e.2.2
          | Option.none => Lit.list vs) j) =
      .ok (match irl.find? (fun e => e.1 == j) with
          | some e => if s0 > e.2.1 then vs.getD j Lit.none else e.2.2
          | Option.none => vs.getD j Lit.none) := by
    intro j hj
    have hjlt : j < vs.length := List.mem_range.mp hj
    cases hfind : irl.find? (fun e => e.1 == j) with
    | none =>
        show (if (plainRule k s0 (Lit.list vs)).headIsIndex then
            Except.ok (Lit.list vs)
          else Lit.getItem (Lit.list vs) j) = .ok (vs.getD j Lit.none)
        rw [if_neg (show ¬ (plainRule k s0 (Lit.list vs)).headIsIndex = true by
          simp [plainRule, ConfigRule.headIsIndex])]
        exact getItem_list_of_lt vs j hjlt
    | some e =>
        show (if (if s0 > e.2.1 then plainRule k s0 (Lit.list vs)
              else idxRule k e.1 e.2.1 e.2.2).headIsIndex then
            Except.ok (if s0 > e.2.1 then Lit.list vs else e.2.2)
          else Lit.getItem (if s0 > e.2.1 then Lit.list vs else e.2.2) j) =
          .ok (if s0 > e.2.1 then vs.getD j Lit.none else e.2.2)
        by_cases hs : s0 > e.2.1
        · simp only [if_pos hs]
          rw [if_neg (show ¬ (plainRule k s0 (Lit.list vs)).headIsIndex = true by
            simp [plainRule, ConfigRule.headIsIndex])]
          exact getItem_list_of_lt vs j hjlt
        · simp only [if_neg hs]
          rw [if_pos (show (idxRule k e.1 e.2.1 e.2.2).headIsIndex = true from rfl)]
  unfold Config.processKeyIndexed
  simp only [hiv, hfilterc, hany, List.isEmpty_cons, Bool.false_eq_true, if_false,
    takeMostSpecificInList_singleton, okBind, hgv, Bool.not_true]
  simp only [hindices, hlast, range_filter_missing_eq_nil vs.length M (by omega),
    List.isEmpty_nil, if_true]
  rw [selectWinners_map _ _
    (fun j => match irl.find? (fun e => e.1 == j) with
      | some e => if s0 > e.2.1 then plainRule k s0 (.list vs)
          else idxRule k e.1 e.2.1 e.2.2
      | Option.none => plainRule k s0 (.list vs)) hfill]
  simp only [okBind]
  rw [getValuesF_map_idx _ _
    (fun j => match irl.find? (fun e => e.1 == j) with
      | some e => if s0 > e.2.1 then plainRule k s0 (.list vs)
          else idxRule k e.1 e.2.1 e.2.2
      | Option.none => plainRule k s0 (.list vs))
    (fun j => match irl.find? (fun e => e.1 == j) with
      | some e => if s0 > e.2.1 then Lit.list vs else e.2.2
      | Option.none => Lit.list vs) hval]
  simp only [okBind]
  rw [broadcastAdjust_map_idx
    (fun j => match irl.find? (fun e => e.1 == j) with
      | some e => if s0 > e.2.1 then plainRule k s0 (.list vs)
          else idxRule k e.1 e.2.1 e.2.2
      | Option.none => plainRule k s0 (.list vs))
    (fun j => match irl.find? (fun e => e.1 == j) with
      | some e => if s0 > e.2.1 then Lit.list vs else e.2.2
      | Option.none => Lit.list vs)
    (fun j => match irl.find? (fun e => e.1 == j) with
      | some e => if s0 > e.2.1 then vs.getD j Lit.none else e.2.2
      | Option.none => vs.getD j Lit.none)
    (List.range vs.length) hfin]
  rfl

theorem foldl_addRuleOnKey_same (k : String) :
    ∀ (rules acc : List ConfigRule),
      (∀ r ∈ rules, r.key = k) →
      rules.foldl addRuleOnKey [(k, acc)] = [(k, acc ++ rules)]
  | [], acc, _ => by simp
  | r :: rest, acc, h => by
      rw [List.foldl_cons, show addRuleOnKey [(k, acc)] r = [(k, acc ++ [r])] from by
        simp [addRuleOnKey, lookupA, setA, h r (List.mem_cons_self _ _)]]
      rw [foldl_addRuleOnKey_same k rest (acc ++ [r])
        (fun x hx => h x (List.mem_cons_of_mem _ hx))]
      simp

theorem mergeRulesOnKey_all_same (k : String) (rules : List ConfigRule)
    (hne : rules ≠ []) (h : ∀ r ∈ rules, r.key = k) :
    mergeRulesOnKey rules = [(k, rules)] := by
  cases rules with
  | nil => exact absurd rfl hne
  | cons r rest =>
      unfold mergeRulesOnKey
      rw [List.foldl_cons, show addRuleOnKey [] r = [(k, [r])] from by
        simp [addRuleOnKey, lookupA, h r (List.mem_cons_self _ _)]]
      rw [foldl_addRuleOnKey_same k rest [r]
        (fun x hx => h x (List.mem_cons_of_mem _ hx))]
      simp

/-- C4: when `get` resolves a key over a non-index-terminated query where one
non-indexed matching rule (specificity `s0`) provides a sequence `vs` and one
index-specific matching rule exists for each position listed in `irl`
(distinct positions within the sequence), each position with an indexed rule
of specificity at or above `s0` takes that indexed rule's value, and every
position not covered by an indexed rule, or covered only by an indexed rule
strictly less specific than `s0`, receives the corresponding element of the
sequence (broadcast by position). -/
theorem claim4_indexed_broadcast (fuel : Nat) (ctx sel : Selector) (k : String)
    (s0 : Int) (vs : List Lit) (irl : List (Nat × Int × Lit)) (rdim : Bool)
    (hne : irl ≠ []) (hnd : (irl.map (fun e => e.1)).Nodup)
    (hlt : ∀ e ∈ irl, e.1 < vs.length)
    (hli : isIndexOpt (Selector.pop (ctx ++ sel)).2 = false)
    (hmatch : ∀ r ∈ (plainRule k s0 (.list vs) ::
        irl.map (fun e => idxRule k e.1 e.2.1 e.2.2)),
      r.matches (ctx ++ sel) true true = true) :
    Config.get (fuel + 1)
      (Config.mk (plainRule k s0 (.list vs) ::
        irl.map (fun e => idxRule k e.1 e.2.1 e.2.2)) ctx) sel Option.none rdim =
      .ok (.list ((List.range vs.length).map (fun j =>
        match irl.find? (fun e => e.1 == j) with
        | some e => if s0 > e.2.1 then vs.getD j Lit.none else e.2.2
        | Option.none => vs.getD j Lit.none))) := by
  have hkeys : ∀ r ∈ (plainRule k s0 (.list vs) ::
      irl.map (fun e => idxRule k e.1 e.2.1 e.2.2)), r.key = k := by
    intro r hr
    rcases List.mem_cons.mp hr with rfl | hr2
    · rfl
    · obtain ⟨e, _, rfl⟩ := List.mem_map.mp hr2
      rfl
  have hres : Config.resolveKeysF (fun c s d r => Config.get fuel c s d r)
      (Config.mk (plainRule k s0 (.list vs) ::
        irl.map (fun e => idxRule k e.1 e.2.1 e.2.2)) ctx) sel =
      .ok [(k, .list ((List.range vs.length).map (fun j =>
        match irl.find? (fun e => e.1 == j) with
        | some e => if s0 > e.2.1 then vs.getD j Lit.none else e.2.2
        | Option.none => vs.getD j Lit.none)))] := by
    unfold Config.resolveKeysF
    simp only [hli, Bool.not_false, if_true]
    rw [List.filter_eq_self.mpr hmatch]
    rw [mergeRulesOnKey_all_same k _ (by simp) hkeys]
    exact takePerKeyAndIndexF_singleton _ _ _ _ _
      (processKeyIndexed_broadcast _ _ k s0 vs irl hne hnd hlt)
  simp only [Config.get, hres]

/-- C4 witness: with the non-indexed rule `layers = [10, 20, 30]`
(specificity 1) and indexed rules `layers[1] = 99` at specificity 5 (kept)
respectively specificity 0 (dropped as strictly less specific than the
broadcast winner), `get("layers")` returns the broadcast with and without
the override. -/
theorem claim4_witness :
    ([(1, (5 : Int), Lit.int 99)] ≠ ([] : List (Nat × Int × Lit))) ∧
    Config.get 1 (Config.mk (plainRule "layers" 1
        (.list [.int 10, .int 20, .int 30]) ::
        [((1 : Nat), (5 : Int), Lit.int 99)].map
          (fun e => idxRule "layers" e.1 e.2.1 e.2.2)) [])
      [Segment.cls "layers"] Option.none false =
      .ok (.list [.int 10, .int 99, .int 30]) ∧
    Config.get 1 (Config.mk (plainRule "layers" 1
        (.list [.int 10, .int 20, .int 30]) ::
        [((1 : Nat), (0 : Int), Lit.int 99)].map
          (fun e => idxRule "layers" e.1 e.2.1 e.2.2)) [])
      [Segment.cls "layers"] Option.none false =
      .ok (.list [.int 10, .int 20, .int 30]) := by
  refine ⟨by simp, ?_, ?_⟩
  · rw [claim4_indexed_broadcast 0 [] [Segment.cls "layers"] "layers" 1
      [.int 10, .int 20, .int 30] [(1, 5, .int 99)] false (by simp)
      (by simp) (by simp) rfl (by decide)]
    rfl
  · rw [claim4_indexed_broadcast 0 [] [Segment.cls "layers"] "layers" 1
      [.int 10, .int 20, .int 30] [(1, 0, .int 99)] false (by simp)
      (by simp) (by simp) rfl (by decide)]
    rfl

theorem getLast_sorted_max : ∀ (l : List Nat), l.Sorted (· ≤ ·) → ∀ mx, mx ∈ l →
    (∀ q ∈ l, q ≤ mx) → l.getLast? = some mx
  | [], _, mx, hmem, _ => absurd hmem (List.not_mem_nil mx)
  | [x], _, mx, hmem, _ => by
      simp only [List.mem_singleton] at hmem
      subst hmem
      rfl
  | x :: y :: rest, hs, mx, hmem, hmax => by
      rw [List.getLast?_cons_cons]
      have hs2 : (y :: rest).Sorted (· ≤ ·) := (List.sorted_cons.mp hs).2
      apply getLast_sorted_max (y :: rest) hs2 mx ?_
        (fun q hq => hmax q (List.mem_cons_of_mem _ hq))
      rcases List.mem_cons.mp hmem with rfl | h2
      · have hxy : mx ≤ y := (List.sorted_cons.mp hs).1 y (List.mem_cons_self _ _)
        have hyx : y ≤ mx := hmax y (List.mem_cons_of_mem _ (List.mem_cons_self _ _))
        have hym : y = mx := le_antisymm hyx hxy
        exact hym ▸ List.mem_cons_self _ _
      · exact h2

theorem takePerKeyAndIndexF_singleton_error (g : GetFun) (cfg : Config)
    (k : String) (rules : List ConfigRule) (e : PyErr)
    (h : Config.processKeyIndexed g cfg k rules = .error e) :
    Config.takePerKeyAndIndexF g cfg [(k, rules)] = .error e := by
  simp only [Config.takePerKeyAndIndexF, h]
  rfl

/-- C9: during indexed resolution of a key whose rules are index-specific
rules at the distinct positions listed in `irl` (with maximum position `mx`)
and no non-indexed rule (so nothing is broadcast), the gap-in-indices
assertion fires exactly when some index below `mx` is not covered by an
indexed rule. -/
theorem claim9_gap_assertion (g : GetFun) (cfg : Config) (k : String)
    (irl : List (Nat × Int × Lit)) (mx : Nat)
    (hne : irl ≠ []) (hnd : (irl.map (fun e => e.1)).Nodup)
    (hmem : mx ∈ irl.map (fun e => e.1))
    (hmax : ∀ q ∈ irl.map (fun e => e.1), q ≤ mx) :
    isAssertionError (Config.takePerKeyAndIndexF g cfg
      [(k, irl.map (fun e => idxRule k e.1 e.2.1 e.2.2))]) = true ↔
    ∃ i, i < mx ∧ i ∉ irl.map (fun e => e.1) := by
  have hiv : buildIndexedValues (irl.map (fun e => idxRule k e.1 e.2.1 e.2.2)) =
      irl.map (fun e => (e.1, [idxRule k e.1 e.2.1 e.2.2])) := by
    unfold buildIndexedValues
    exact foldl_addIndexedRule_singletons k irl [] hnd (fun e he => rfl)
  have hkeys0 : keysA (irl.map (fun e => (e.1, [idxRule k e.1 e.2.1 e.2.2]))) =
      irl.map (fun e => e.1) :=
    keysA_map_pair irl (fun e => e.1) (fun e => [idxRule k e.1 e.2.1 e.2.2])
  have hfilterc := filter_not_indexed_map k irl
  have hany : (irl.map (fun e => idxRule k e.1 e.2.1 e.2.2)).any
      (fun r => r.headIsIndex) = true := by
    rcases irl with _ | ⟨e, rest⟩
    · exact absurd rfl hne
    · exact List.any_eq_true.mpr ⟨idxRule k e.1 e.2.1 e.2.2, by simp, rfl⟩
  have hleast : ConfigRule.get_valueF g leastSpecificRule cfg =
      .ok (.list []) := rfl
  have hsorted_mem : ∀ j, (j ∈ List.insertionSort (· ≤ ·)
      (keysA (irl.map (fun e => (e.1, [idxRule k e.1 e.2.1 e.2.2]))))) ↔ j ∈ irl.map (fun e => e.1) := by
    intro j
    rw [(List.perm_insertionSort _ _).mem_iff, hkeys0]
  have hlastmx : (List.insertionSort (· ≤ ·)
      (keysA (irl.map (fun e => (e.1, [idxRule k e.1 e.2.1 e.2.2]))))).getLast? = some mx := by
    apply getLast_sorted_max _ (List.sorted_insertionSort _ _) mx
      ((hsorted_mem mx).mpr hmem)
    intro q hq
    exact hmax q ((hsorted_mem q).mp hq)
  by_cases hgap : ∃ i, i < mx ∧ i ∉ irl.map (fun e => e.1)
  · obtain ⟨i, hilt, hinot⟩ := hgap
    have hcontains : ((List.insertionSort (· ≤ ·)
      (keysA (irl.map (fun e => (e.1, [idxRule k e.1 e.2.1 e.2.2]))))).contains i) = false := by
      cases hc : ((List.insertionSort (· ≤ ·)
      (keysA (irl.map (fun e => (e.1, [idxRule k e.1 e.2.1 e.2.2]))))).contains i) with
      | false => rfl
      | true => exact absurd ((hsorted_mem i).mp (List.elem_iff.mp hc)) hinot
    have hmiss_mem : i ∈ (List.range mx).filter
        (fun i2 => !((List.insertionSort (· ≤ ·)
      (keysA (irl.map (fun e => (e.1, [idxRule k e.1 e.2.1 e.2.2]))))).contains i2)) := by
      apply List.mem_filter.mpr
      refine ⟨List.mem_range.mpr hilt, ?_⟩
      show (!((List.insertionSort (· ≤ ·)
      (keysA (irl.map (fun e => (e.1, [idxRule k e.1 e.2.1 e.2.2]))))).contains i)) = true
      rw [hcontains]
      rfl
    have hmiss_empty : ((List.range mx).filter
        (fun i2 => !((List.insertionSort (· ≤ ·)
      (keysA (irl.map (fun e => (e.1, [idxRule k e.1 e.2.1 e.2.2]))))).contains i2))).isEmpty = false := by
      cases hfl : (List.range mx).filter (fun i2 => !((List.insertionSort (· ≤ ·)
      (keysA (irl.map (fun e => (e.1, [idxRule k e.1 e.2.1 e.2.2]))))).contains i2)) with
      | nil => rw [hfl] at hmiss_mem; cases hmiss_mem
      | cons a l => rfl
    have hpk : Config.processKeyIndexed g cfg k
        (irl.map (fun e => idxRule k e.1 e.2.1 e.2.2)) =
        .error (.assertionError ("Missing indices for key " ++ k)) := by
      unfold Config.processKeyIndexed
      simp only [hiv, hfilterc, hany, List.isEmpty_nil, eq_self_iff_true, if_true,
        takeMostSpecificInList_singleton, okBind, hleast, Bool.not_true,
        Bool.false_eq_true, if_false, List.length_nil, List.range_zero,
        List.foldl_nil, hlastmx, hmiss_empty]
    rw [takePerKeyAndIndexF_singleton_error _ _ _ _ _ hpk]
    exact iff_of_true rfl ⟨i, hilt, hinot⟩
  · have hall : ∀ i, i < mx → i ∈ irl.map (fun e => e.1) := by
      intro i hi
      by_contra hc
      exact hgap ⟨i, hi, hc⟩
    have hmiss_nil : (List.range mx).filter
        (fun i2 => !((List.insertionSort (· ≤ ·)
      (keysA (irl.map (fun e => (e.1, [idxRule k e.1 e.2.1 e.2.2]))))).contains i2)) = [] := by
      apply List.filter_eq_nil_iff.mpr
      intro i2 hi2
      have hm2 : i2 ∈ (List.insertionSort (· ≤ ·)
      (keysA (irl.map (fun e => (e.1, [idxRule k e.1 e.2.1 e.2.2]))))) :=
        (hsorted_mem i2).mpr (hall i2 (List.mem_range.mp hi2))
      have hcont2 : ((List.insertionSort (· ≤ ·)
      (keysA (irl.map (fun e => (e.1, [idxRule k e.1 e.2.1 e.2.2]))))).contains i2) = true :=
        List.elem_eq_true_of_mem hm2
      show ¬ (!((List.insertionSort (· ≤ ·)
      (keysA (irl.map (fun e => (e.1, [idxRule k e.1 e.2.1 e.2.2]))))).contains i2)) = true
      rw [hcont2]
      simp
    have hsel : ∀ j ∈ (List.insertionSort (· ≤ ·)
      (keysA (irl.map (fun e => (e.1, [idxRule k e.1 e.2.1 e.2.2]))))),
        lookupA (irl.map (fun e => (e.1, [idxRule k e.1 e.2.1 e.2.2]))) j =
        some [match irl.find? (fun e => e.1 == j) with
          | some e => idxRule k e.1 e.2.1 e.2.2
          | Option.none => leastSpecificRule] := by
      intro j hj
      rw [lookupA_map_pair irl (fun e => e.1)
        (fun e => [idxRule k e.1 e.2.1 e.2.2]) j]
      obtain ⟨e, he, hej⟩ := List.mem_map.mp ((hsorted_mem j).mp hj)
      cases hf : irl.find? (fun e => e.1 == j) with
      | none =>
          exact absurd (by simp [hej] : (e.1 == j) = true)
            (by simpa using List.find?_eq_none.mp hf e he)
      | some x => rfl
    have hvalj : ∀ j ∈ (List.insertionSort (· ≤ ·)
      (keysA (irl.map (fun e => (e.1, [idxRule k e.1 e.2.1 e.2.2]))))),
        ConfigRule.get_valueF g (match irl.find? (fun e => e.1 == j) with
          | some e => idxRule k e.1 e.2.1 e.2.2
          | Option.none => leastSpecificRule) cfg =
        .ok (match irl.find? (fun e => e.1 == j) with
          | some e => e.2.2
          | Option.none => Lit.list []) := by
      intro j hj
      cases hf : irl.find? (fun e => e.1 == j) with
      | none => rfl
      | some x => rfl
    have hfinj : ∀ j ∈ (List.insertionSort (· ≤ ·)
      (keysA (irl.map (fun e => (e.1, [idxRule k e.1 e.2.1 e.2.2]))))),
        (if ConfigRule.headIsIndex (match irl.find? (fun e => e.1 == j) with
          | some e => idxRule k e.1 e.2.1 e.2.2
          | Option.none => leastSpecificRule) then
          Except.ok (match irl.find? (fun e => e.1 == j) with
          | some e => e.2.2
          | Option.none => Lit.list [])
        else Lit.getItem (match irl.find? (fun e => e.1 == j) with
          | some e => e.2.2
          | Option.none => Lit.list []) j) =
        .ok (match irl.find? (fun e => e.1 == j) with
          | some e => e.2.2
          | Option.none => Lit.list []) := by
      intro j hj
      obtain ⟨e, he, hej⟩ := List.mem_map.mp ((hsorted_mem j).mp hj)
      cases hf : irl.find? (fun e => e.1 == j) with
      | none =>
          exact absurd (by simp [hej] : (e.1 == j) = true)
            (by simpa using List.find?_eq_none.mp hf e he)
      | some x =>
          rw [if_pos (show ConfigRule.headIsIndex
            (idxRule k x.1 x.2.1 x.2.2) = true from rfl)]
    have hpk : Config.processKeyIndexed g cfg k
        (irl.map (fun e => idxRule k e.1 e.2.1 e.2.2)) =
        .ok (.list ((List.insertionSort (· ≤ ·)
      (keysA (irl.map (fun e => (e.1, [idxRule k e.1 e.2.1 e.2.2]))))).map (fun j => match irl.find? (fun e => e.1 == j) with
        | some e => e.2.2
        | Option.none => Lit.list []))) := by
      unfold Config.processKeyIndexed
      simp only [hiv, hfilterc, hany, List.isEmpty_nil, eq_self_iff_true, if_true,
        takeMostSpecificInList_singleton, okBind, hleast, Bool.not_true,
        Bool.false_eq_true, if_false, List.length_nil, List.range_zero,
        List.foldl_nil, hlastmx, hmiss_nil]
      rw [selectWinners_map _ _ (fun j => match irl.find? (fun e => e.1 == j) with
        | some e => idxRule k e.1 e.2.1 e.2.2
        | Option.none => leastSpecificRule) hsel]
      simp only [okBind]
      rw [getValuesF_map_idx _ _ (fun j => match irl.find? (fun e => e.1 == j) with
        | some e => idxRule k e.1 e.2.1 e.2.2
        | Option.none => leastSpecificRule) (fun j => match irl.find? (fun e => e.1 == j) with
        | some e => e.2.2
        | Option.none => Lit.list []) hvalj]
      simp only [okBind]
      rw [broadcastAdjust_map_idx (fun j => match irl.find? (fun e => e.1 == j) with
        | some e => idxRule k e.1 e.2.1 e.2.2
        | Option.none => leastSpecificRule) (fun j => match irl.find? (fun e => e.1 == j) with
        | some e => e.2.2
        | Option.none => Lit.list []) (fun j => match irl.find? (fun e => e.1 == j) with
        | some e => e.2.2
        | Option.none => Lit.list []) (List.insertionSort (· ≤ ·)
      (keysA (irl.map (fun e => (e.1, [idxRule k e.1 e.2.1 e.2.2]))))) hfinj]
      rfl
    rw [takePerKeyAndIndexF_singleton _ _ _ _ _ hpk]
    exact iff_of_false (by simp [isAssertionError]) hgap

/-- C9 witness: indexed rules at positions 0 and 2 with none at position 1
trigger the gap-in-indices assertion during indexed resolution; with
position 1 also covered the assertion does not fire. -/
theorem claim9_witness :
    isAssertionError (Config.takePerKeyAndIndexF
      (fun _ _ _ _ => .error (.recursionError "r")) (Config.mk [] [])
      [("layers", ([((0 : Nat), (1 : Int), Lit.int 5), (2, 1, Lit.int 6)]).map
        (fun e => idxRule "layers" e.1 e.2.1 e.2.2))]) = true ∧
    isAssertionError (Config.takePerKeyAndIndexF
      (fun _ _ _ _ => .error (.recursionError "r")) (Config.mk [] [])
      [("layers", ([((0 : Nat), (1 : Int), Lit.int 5), (1, 1, Lit.int 9),
        (2, 1, Lit.int 6)]).map
        (fun e => idxRule "layers" e.1 e.2.1 e.2.2))]) = false := by
  constructor
  · exact (claim9_gap_assertion (fun _ _ _ _ => .error (.recursionError "r"))
      (Config.mk [] []) "layers" [(0, 1, .int 5), (2, 1, .int 6)] 2
      (List.cons_ne_nil _ _) (by decide) (by decide) (by decide)).mpr
      ⟨1, by decide, by decide⟩
  · have hno : ¬ ∃ i, i < 2 ∧
        i ∉ ([((0 : Nat), (1 : Int), Lit.int 5), (1, 1, Lit.int 9),
          (2, 1, Lit.int 6)]).map (fun e => e.1) := by
      rintro ⟨i, hi, hnot⟩
      interval_cases i <;> simp at hnot
    have h := claim9_gap_assertion (fun _ _ _ _ => .error (.recursionError "r"))
      (Config.mk [] []) "layers" [(0, 1, .int 5), (1, 1, .int 9), (2, 1, .int 6)] 2
      (List.cons_ne_nil _ _) (by decide) (by decide) (by decide)
    cases hb : isAssertionError (Config.takePerKeyAndIndexF
        (fun _ _ _ _ => .error (.recursionError "r")) (Config.mk [] [])
        [("layers", ([((0 : Nat), (1 : Int), Lit.int 5), (1, 1, Lit.int 9),
          (2, 1, Lit.int 6)]).map
          (fun e => idxRule "layers" e.1 e.2.1 e.2.2))]) with
    | false => rfl
    | true => exact absurd (h.mp hb) hno

end Deeplay
